import Mathlib

/-!
Verification of the contrast-detection and derived-table pipeline of
`app_diffexpr.py` (a Streamlit app for exploring differential-expression
tables).  The pure logic of the source file is embedded shallowly:

* `detectar_contrastes` (source lines 72-94): scans column names with four
  case-insensitive suffix patterns and groups them by prefix.
* `elegir_columna_gen` (96-101): picks the gene column from a priority list.
* `pretty_contrast_name` (103-104): strips a `PRJNA<digits>_<token>_` lead.
* `cat` (195-200): the per-row significance classifier.
* `mask` (231): the vectorized DEGs filter.
* separator determination of `read_table` (52-66) plus a small model of
  `pandas.read_csv` on simple delimited text.
* `preparar_deg_por_contraste` (106-123): the per-contrast table builder.

Numeric cell values are modelled as exact rationals; a missing/NaN value is
`none` (for scalars) or `Cell.nan` (inside tables).  The `-log10` transform
lands in `ℝ`.  Column names are assumed newline-free (as produced by the
loaders), so Python's regex `.`/`$` newline subtleties do not arise.
-/

namespace DiffExpr

/-- First-some choice on options, as in Python's `a if a else b`. -/
def optOr (a b : Option String) : Option String :=
  match a with
  | some x => some x
  | none => b

/-! ## Contrast detector (`detectar_contrastes`, lines 72-94) -/

/-- The four roles a column can play for a contrast, in the priority order of
the `patrones` dict of the source. -/
inductive Role where
  | logFC
  | AveExpr
  | adjP
  | P
deriving DecidableEq, Repr

/-- The per-contrast record `{"logFC": ..., "AveExpr": ..., "adjP": ..., "P": ...}`. -/
structure ContrastRec where
  logFC : Option String
  AveExpr : Option String
  adjP : Option String
  P : Option String
deriving DecidableEq, Repr

/-- The record a prefix starts with (line 87). -/
def emptyRec : ContrastRec := ⟨none, none, none, none⟩

/-- Strip the characters of the first list from the front of the second,
comparing case-insensitively; `none` when they do not all match. -/
def stripCI : List Char → List Char → Option (List Char)
  | [], cs => some cs
  | _ :: _, [] => none
  | s :: ss, c :: cs => if c.toLower = s.toLower then stripCI ss cs else none

/-- Model of `re.match(r"(.+?)<suf>$", col)` with `re.IGNORECASE`: the column
matches when it ends (case-insensitively) with `suf` preceded by a nonempty
remainder, which is returned with its original case. -/
def sufMatchCI (suf : String) (col : String) : Option String :=
  match stripCI suf.data.reverse col.data.reverse with
  | some (r :: rs) => some (String.mk (r :: rs).reverse)
  | _ => none

/-- The loop over `patrones` (lines 82-89): the first pattern that matches
wins (`break`), in the order logFC, AveExpr, adjP, P. -/
def matchCol (col : String) : Option (Role × String) :=
  match sufMatchCI "_logFC" col with
  | some p => some (Role.logFC, p)
  | none =>
    match sufMatchCI "_AveExpr" col with
    | some p => some (Role.AveExpr, p)
    | none =>
      match sufMatchCI "_adj.P.Val" col with
      | some p => some (Role.adjP, p)
      | none => (sufMatchCI "_P.Value" col).map fun p => (Role.P, p)

/-- The contrast identifier a column contributes to, if any. -/
def colPref (col : String) : Option String := (matchCol col).map Prod.snd

/-- `info[pref][tipo] = col` on one record (line 88). -/
def setRole (d : ContrastRec) : Role → String → ContrastRec
  | Role.logFC, c => { d with logFC := some c }
  | Role.AveExpr, c => { d with AveExpr := some c }
  | Role.adjP, c => { d with adjP := some c }
  | Role.P, c => { d with P := some c }

/-- Field projection by role. -/
def getRole (d : ContrastRec) : Role → Option String
  | Role.logFC => d.logFC
  | Role.AveExpr => d.AveExpr
  | Role.adjP => d.adjP
  | Role.P => d.P

/-- Insertion-ordered dictionary update: existing keys are updated in place,
new keys are appended (Python dict semantics, lines 86-88). -/
def updateInfo : List (String × ContrastRec) → String → Role → String →
    List (String × ContrastRec)
  | [], pref, role, col => [(pref, setRole emptyRec role col)]
  | (p, d) :: rest, pref, role, col =>
    if p = pref then (p, setRole d role col) :: rest
    else (p, d) :: updateInfo rest pref role col

/-- Dictionary lookup on the insertion-ordered association list. -/
def lookupRec : List (String × ContrastRec) → String → Option ContrastRec
  | [], _ => none
  | (p, d) :: rest, q => if p = q then some d else lookupRec rest q

/-- Processing of one column name (lines 80-89). -/
def scanStep (info : List (String × ContrastRec)) (col : String) :
    List (String × ContrastRec) :=
  match matchCol col with
  | some (role, pref) => updateInfo info pref role col
  | none => info

/-- Whether a record survives the validity filter of lines 90-93. -/
def validRec (d : ContrastRec) : Bool :=
  d.logFC.isSome && (d.adjP.isSome || d.P.isSome)

/-- `detectar_contrastes` (lines 72-94), on the ordered sequence of column
names: scan every column, then keep only prefixes with a `logFC` column and
at least one of `adjP`/`P`. -/
def detectar_contrastes (cols : List String) : List (String × ContrastRec) :=
  (cols.foldl scanStep []).filter fun pd => validRec pd.2

/-- The last column of `cols` that matches `(role, p)`, on top of a start
value: the value a dict field holds after repeated overwrites. -/
def lastMatchAux (cols : List String) (role : Role) (p : String)
    (init : Option String) : Option String :=
  cols.foldl (fun a c => if matchCol c = some (role, p) then some c else a) init

/-- The last column of `cols` that matches `(role, p)`. -/
def lastMatch (cols : List String) (role : Role) (p : String) : Option String :=
  lastMatchAux cols role p none

/-- Append a key if it is not present yet (dict insertion order). -/
def insKey (ks : List String) (p : String) : List String :=
  if p ∈ ks then ks else ks ++ [p]

/-- Key evolution of one scan step. -/
def insStep (ks : List String) (col : String) : List String :=
  match colPref col with
  | some p => insKey ks p
  | none => ks

/-- The contrast identifiers in order of first-seen prefix. -/
def firstSeenKeys (cols : List String) : List String :=
  cols.foldl insStep []

/-- Field of an optional record. -/
def fieldOf (o : Option ContrastRec) (role : Role) : Option String :=
  o.bind fun d => getRole d role

/-! ## Gene-column resolver (`elegir_columna_gen`, lines 96-101) -/

/-- The fixed priority list of candidate gene-column names (line 97). -/
def candidatos : List String :=
  ["SYMBOL", "gene_id", "Geneid", "GeneID", "gene", "Gene", "locus_tag"]

/-- `elegir_columna_gen`: the first candidate (in priority-list order) that is
present among the columns, case-sensitively; `none` otherwise. -/
def elegir_columna_gen (cols : List String) : Option String :=
  candidatos.find? fun c => cols.contains c

/-! ## Display-name transform (`pretty_contrast_name`, lines 103-104) -/

/-- Strip a case-sensitive literal from the front of a character list. -/
def stripLit : List Char → List Char → Option (List Char)
  | [], cs => some cs
  | _ :: _, [] => none
  | l :: ls, c :: cs => if c = l then stripLit ls cs else none

/-- The character class `[^_]`. -/
def notUnd (c : Char) : Bool := c ≠ '_'

/-- Model of `re.sub(r"^PRJNA\d+_[^_]+_", "", pref)` restricted to one
anchored attempt: literal `PRJNA`, then one or more digits, then `_`, then one
or more non-underscore characters, then `_`; the remainder is returned.  The
greedy quantifiers are deterministic here because `\d`/`[^_]` exclude the
character that must follow them. -/
def pretty_core (cs : List Char) : Option (List Char) :=
  match stripLit "PRJNA".data cs with
  | none => none
  | some r1 =>
    let ds := r1.takeWhile Char.isDigit
    let r2 := r1.dropWhile Char.isDigit
    if ds = [] then none
    else
      match r2 with
      | [] => none
      | c2 :: r3 =>
        if c2 = '_' then
          let tok := r3.takeWhile notUnd
          let r4 := r3.dropWhile notUnd
          if tok = [] then none
          else
            match r4 with
            | [] => none
            | c4 :: r5 => if c4 = '_' then some r5 else none
        else none

/-- `pretty_contrast_name`: strip the `PRJNA<digits>_<token>_` lead when the
identifier matches, otherwise return it unchanged. -/
def pretty_contrast_name (s : String) : String :=
  match pretty_core s.data with
  | some r => String.mk r
  | none => s

/-! ## Significance classifier (`cat`, lines 195-200) and mask (line 231)

A float that may be NaN is modelled as `Option ℚ`: `none` is NaN.  The
thresholds come from bounded numeric inputs and are plain rationals. -/

/-- The per-row classifier `cat`. -/
def cat (logFC padj : Option ℚ) (thr_logfc thr_padj : ℚ) : String :=
  match logFC, padj with
  | some l, some p =>
    if |l| ≥ thr_logfc ∧ p ≤ thr_padj then (if l > 0 then "Up" else "Down")
    else "No sig"
  | _, _ => "No eval"

/-- The vectorized filter of the DEGs tab (line 231), per row:
`(deg["logFC"].abs() >= thr_logfc) & (deg["padj"] <= thr_padj)`.  A pandas
comparison whose operand is NaN is `False`. -/
def mask (logFC padj : Option ℚ) (thr_logfc thr_padj : ℚ) : Bool :=
  (match logFC with
   | some l => decide (|l| ≥ thr_logfc)
   | none => false)
  &&
  (match padj with
   | some p => decide (p ≤ thr_padj)
   | none => false)

/-! ## Loader separator logic (`read_table`, lines 36-69)

Only the delimited-text path is modelled.  The sniffing step of the source
reads `sniff_df.attrs.get("delimiter", ",")`, but `pandas.read_csv` never
populates `DataFrame.attrs`, so that lookup always takes the fallback. -/

/-- Model of `sniff_df.attrs.get("delimiter")`: `pandas.read_csv` does not
set any `attrs` entry on the frame it returns, whatever the sniffed
delimiter was, so the lookup yields nothing. -/
def pandas_attrs_delimiter : Option String := none

/-- Lower-casing of a filename (`filename.lower()`, line 45). -/
def lowerName (s : String) : String := String.mk (s.data.map Char.toLower)

/-- `name.endswith(suf)` on strings. -/
def endsWithS (s suf : String) : Bool := suf.data.isSuffixOf s.data

/-- The separator `read_table` ends up passing to the final `pd.read_csv`
(lines 52-63); `none` for the spreadsheet path (line 48), which does not use
a separator. -/
def read_table_sep (filename : String) (sep_choice : String) : Option String :=
  let name := lowerName filename
  if endsWithS name ".xlsx" || endsWithS name ".xls" then none
  else if sep_choice = "auto" then
    if endsWithS name ".tsv" then some "\t"
    else some (pandas_attrs_delimiter.getD ",")
  else if sep_choice = "\\t" then some "\t"
  else some sep_choice

/-- The parse errors modelled: `pandas.errors.EmptyDataError`, raised by
`pd.read_csv` when the input has no data at all. -/
inductive LoadErr where
  | emptyData
deriving DecidableEq, Repr

/-- Split a character list at every occurrence of a separator character. -/
def splitOnCharL (sep : Char) : List Char → List (List Char)
  | [] => [[]]
  | c :: cs =>
    let r := splitOnCharL sep cs
    if c = sep then [] :: r
    else
      match r with
      | h :: t => (c :: h) :: t
      | [] => [[c]]

/-- Model of `pd.read_csv` on simple well-formed delimited text with a
single-character separator: non-blank lines only (`skip_blank_lines`
defaults to true), the first line is the header, every line splits on the
separator; empty input raises `EmptyDataError`.  The result is
`(header, rows)`. -/
def parse_csv_model (content : String) (sep : Char) :
    Except LoadErr (List String × List (List String)) :=
  let lines := (splitOnCharL '\n' content.data).filter fun l => l ≠ []
  match lines with
  | [] => Except.error LoadErr.emptyData
  | header :: rest =>
    Except.ok ((splitOnCharL sep header).map String.mk,
      rest.map fun r => (splitOnCharL sep r).map String.mk)

/-- The delimited-text path of `read_table` (lines 52-66): determine the
separator (every separator the app offers is a single character), then
parse; `none` on the spreadsheet path, which is not modelled.  `read_table`
itself contains no error handling, so a parse error is returned (raised) as
such. -/
def read_table_model (content filename sep_choice : String) :
    Option (Except LoadErr (List String × List (List String))) :=
  (read_table_sep filename sep_choice).map fun s =>
    parse_csv_model content (s.data.headD ',')

/-! ## Per-contrast table builder (`preparar_deg_por_contraste`, 106-123)

A table is an ordered list of named columns of cells.  A cell is a string
(non-numeric text), an exact numeric value, a real value (produced only by
the `-log10` transform), or NaN/missing. -/

/-- One table cell. -/
inductive Cell where
  | str (s : String)
  | num (q : ℚ)
  | real (x : ℝ)
  | nan

/-- Model of `pd.to_numeric(-, errors="coerce")` on one cell: numeric values
pass through, non-numeric text and missing values become NaN. -/
def toNumericCell : Cell → Cell
  | Cell.num q => Cell.num q
  | Cell.real x => Cell.real x
  | Cell.str _ => Cell.nan
  | Cell.nan => Cell.nan

/-- `np.clip(q, 1e-300, 1.0)` on an exact rational. -/
def clipQ (q : ℚ) : ℚ := min 1 (max (1e-300 : ℚ) q)

/-- One cell of the `neg_log10_padj` column (line 122):
`-np.log10(np.clip(padj, 1e-300, 1.0))`; `np.clip` and `np.log10` both
propagate NaN. -/
noncomputable def negLog10Cell : Cell → Cell
  | Cell.num q => Cell.real (-Real.logb 10 ((clipQ q : ℚ) : ℝ))
  | _ => Cell.nan

/-- A data frame: ordered named columns. -/
abbrev DF : Type := List (String × List Cell)

/-- The (first) column with a given name. -/
def getCol : DF → String → Option (List Cell)
  | [], _ => none
  | (n, v) :: rest, q => if n = q then some v else getCol rest q

/-- Number of rows (all columns share it; `len(df)`). -/
def nrowsDF (df : DF) : ℕ :=
  match df with
  | [] => 0
  | (_, v) :: _ => v.length

/-- `df.rename(columns=...)`: relabel every column through a mapping. -/
def renameCols (df : DF) (f : String → String) : DF :=
  df.map fun c => (f c.1, c.2)

/-- The column mapping induced by a Python dict literal: first matching key
wins (the keys are distinct in every use below). -/
def applyRen : List (String × String) → String → String
  | [], n => n
  | (a, b) :: rest, n => if n = a then b else applyRen rest n

/-- `work[name] = f(work[name])`: transform the cells of the column(s) with
the given name. -/
def mapCol (df : DF) (name : String) (f : Cell → Cell) : DF :=
  df.map fun c => if c.1 = name then (c.1, c.2.map f) else c

/-- `work[[names]]`: select columns by name, in the requested order. -/
def selectCols (df : DF) (names : List String) : DF :=
  names.filterMap fun n => (getCol df n).map fun v => (n, v)

/-- Lines 120-123 of the builder: coerce `padj` and `logFC` to numeric, add
the `neg_log10_padj` column and select the five output columns. -/
noncomputable def tailBuild (w2 : DF) : DF :=
  let w3 := mapCol w2 "padj" toNumericCell
  let w4 := mapCol w3 "logFC" toNumericCell
  let w5 := w4 ++
    [("neg_log10_padj", ((getCol w4 "padj").getD []).map negLog10Cell)]
  selectCols w5 ["gene", "logFC", "AveExpr", "padj", "neg_log10_padj"]

/-- The body of `preparar_deg_por_contraste` (lines 111-123) once the column
references are resolved: rename to the canonical names (111-115), fill
`AveExpr` with NaN when absent (116-119), then coerce, transform and select
(120-123). -/
noncomputable def buildOut (df : DF) (gene_col logfc_col padj_col : String)
    (ave : Option String) : DF :=
  let w1 := renameCols df
    (applyRen [(gene_col, "gene"), (logfc_col, "logFC"), (padj_col, "padj")])
  tailBuild (match ave with
    | some a => renameCols w1 (applyRen [(a, "AveExpr")])
    | none => w1 ++ [("AveExpr", List.replicate (nrowsDF w1) Cell.nan)])

/-- `preparar_deg_por_contraste` (lines 106-123) for one contrast record:
resolve the padj source (`adjP` preferred over `P`, line 110), then build
the five-column table.  `none` models the `KeyError` a record without
`logFC` or without both p-columns would raise; such records never pass the
detector's validity filter. -/
noncomputable def preparar_deg_por_contraste (df : DF) (gene_col : String)
    (meta : ContrastRec) : Option DF :=
  match meta.logFC with
  | none => none
  | some logfc_col =>
    match optOr meta.adjP meta.P with
    | none => none
    | some padj_col =>
      some (buildOut df gene_col logfc_col padj_col meta.AveExpr)

/-! ## Lemmas on the contrast detector -/

theorem stripCI_head {s : Char} {ss : List Char} {c0 : Char} {cs r : List Char}
    (h : stripCI (s :: ss) (c0 :: cs) = some r) : c0.toLower = s.toLower := by
  by_cases hc : c0.toLower = s.toLower
  · exact hc
  · simp [stripCI, hc] at h

theorem sufMatchCI_head {suf col p : String} {s : Char} {ss : List Char}
    (hsuf : suf.data.reverse = s :: ss) (h : sufMatchCI suf col = some p) :
    ∃ c0 cs, col.data.reverse = c0 :: cs ∧ c0.toLower = s.toLower := by
  unfold sufMatchCI at h
  rw [hsuf] at h
  cases hcol : col.data.reverse with
  | nil =>
    rw [hcol] at h
    simp [stripCI] at h
  | cons c0 cs =>
    rw [hcol] at h
    refine ⟨c0, cs, rfl, ?_⟩
    cases hs : stripCI (s :: ss) (c0 :: cs) with
    | none => rw [hs] at h; simp at h
    | some r => exact stripCI_head hs

theorem sufMatchCI_none_of_head {suf col : String} {s : Char} {ss : List Char}
    {c0 : Char} {cs : List Char} (hsuf : suf.data.reverse = s :: ss)
    (hcol : col.data.reverse = c0 :: cs) (hne : c0.toLower ≠ s.toLower) :
    sufMatchCI suf col = none := by
  unfold sufMatchCI
  rw [hsuf, hcol]
  simp [stripCI, hne]

/-- The four suffixes end in pairwise distinct letters (`c`, `r`, `l`, `e`
after lower-casing), so a column matches at most one pattern. -/
theorem sufMatchCI_excl {col p : String} (suf1 suf2 : String) {s1 s2 : Char}
    {ss1 ss2 : List Char} (h1 : suf1.data.reverse = s1 :: ss1)
    (h2 : suf2.data.reverse = s2 :: ss2) (hne : s1.toLower ≠ s2.toLower)
    (hm : sufMatchCI suf1 col = some p) : sufMatchCI suf2 col = none := by
  obtain ⟨c0, cs, hcol, hc0⟩ := sufMatchCI_head h1 hm
  exact sufMatchCI_none_of_head h2 hcol (by rw [hc0]; exact hne)

theorem matchCol_logFC_iff {c p : String} :
    matchCol c = some (Role.logFC, p) ↔ sufMatchCI "_logFC" c = some p := by
  constructor
  · intro h
    unfold matchCol at h
    cases h1 : sufMatchCI "_logFC" c with
    | some q => rw [h1] at h; simp_all
    | none =>
      rw [h1] at h
      cases h2 : sufMatchCI "_AveExpr" c with
      | some q => rw [h2] at h; simp_all
      | none =>
        rw [h2] at h
        cases h3 : sufMatchCI "_adj.P.Val" c with
        | some q => rw [h3] at h; simp_all
        | none =>
          rw [h3] at h
          cases h4 : sufMatchCI "_P.Value" c with
          | some q => rw [h4] at h; simp_all
          | none => rw [h4] at h; simp_all
  · intro h
    unfold matchCol
    rw [h]

theorem matchCol_AveExpr_iff {c p : String} :
    matchCol c = some (Role.AveExpr, p) ↔ sufMatchCI "_AveExpr" c = some p := by
  constructor
  · intro h
    unfold matchCol at h
    cases h1 : sufMatchCI "_logFC" c with
    | some q => rw [h1] at h; simp_all
    | none =>
      rw [h1] at h
      cases h2 : sufMatchCI "_AveExpr" c with
      | some q => rw [h2] at h; simp_all
      | none =>
        rw [h2] at h
        cases h3 : sufMatchCI "_adj.P.Val" c with
        | some q => rw [h3] at h; simp_all
        | none =>
          rw [h3] at h
          cases h4 : sufMatchCI "_P.Value" c with
          | some q => rw [h4] at h; simp_all
          | none => rw [h4] at h; simp_all
  · intro h
    have hL : sufMatchCI "_logFC" c = none :=
      sufMatchCI_excl "_AveExpr" "_logFC"
        rfl rfl (by decide) h
    unfold matchCol
    rw [hL, h]

theorem matchCol_adjP_iff {c p : String} :
    matchCol c = some (Role.adjP, p) ↔ sufMatchCI "_adj.P.Val" c = some p := by
  constructor
  · intro h
    unfold matchCol at h
    cases h1 : sufMatchCI "_logFC" c with
    | some q => rw [h1] at h; simp_all
    | none =>
      rw [h1] at h
      cases h2 : sufMatchCI "_AveExpr" c with
      | some q => rw [h2] at h; simp_all
      | none =>
        rw [h2] at h
        cases h3 : sufMatchCI "_adj.P.Val" c with
        | some q => rw [h3] at h; simp_all
        | none =>
          rw [h3] at h
          cases h4 : sufMatchCI "_P.Value" c with
          | some q => rw [h4] at h; simp_all
          | none => rw [h4] at h; simp_all
  · intro h
    have hL : sufMatchCI "_logFC" c = none :=
      sufMatchCI_excl "_adj.P.Val" "_logFC"
        rfl rfl (by decide) h
    have hA : sufMatchCI "_AveExpr" c = none :=
      sufMatchCI_excl "_adj.P.Val" "_AveExpr"
        rfl rfl (by decide) h
    unfold matchCol
    rw [hL, hA, h]

theorem matchCol_P_iff {c p : String} :
    matchCol c = some (Role.P, p) ↔ sufMatchCI "_P.Value" c = some p := by
  constructor
  · intro h
    unfold matchCol at h
    cases h1 : sufMatchCI "_logFC" c with
    | some q => rw [h1] at h; simp_all
    | none =>
      rw [h1] at h
      cases h2 : sufMatchCI "_AveExpr" c with
      | some q => rw [h2] at h; simp_all
      | none =>
        rw [h2] at h
        cases h3 : sufMatchCI "_adj.P.Val" c with
        | some q => rw [h3] at h; simp_all
        | none =>
          rw [h3] at h
          cases h4 : sufMatchCI "_P.Value" c with
          | some q => rw [h4] at h; simp_all
          | none => rw [h4] at h; simp_all
  · intro h
    have hL : sufMatchCI "_logFC" c = none :=
      sufMatchCI_excl "_P.Value" "_logFC"
        rfl rfl (by decide) h
    have hA : sufMatchCI "_AveExpr" c = none :=
      sufMatchCI_excl "_P.Value" "_AveExpr"
        rfl rfl (by decide) h
    have hJ : sufMatchCI "_adj.P.Val" c = none :=
      sufMatchCI_excl "_P.Value" "_adj.P.Val"
        rfl rfl (by decide) h
    unfold matchCol
    rw [hL, hA, hJ, h]
    rfl

theorem fieldOf_some (d : ContrastRec) (role : Role) :
    fieldOf (some d) role = getRole d role := rfl

theorem fieldOf_none (role : Role) : fieldOf none role = none := rfl

theorem getRole_emptyRec (role : Role) : getRole emptyRec role = none := by
  cases role <;> rfl

theorem getRole_setRole (d : ContrastRec) (role' : Role) (c : String)
    (role : Role) :
    getRole (setRole d role' c) role =
      if role = role' then some c else getRole d role := by
  cases role <;> cases role' <;> simp [setRole, getRole]

theorem lookup_updateInfo (info : List (String × ContrastRec)) (pref : String)
    (role : Role) (col : String) (q : String) :
    lookupRec (updateInfo info pref role col) q =
      if q = pref then
        some (setRole ((lookupRec info pref).getD emptyRec) role col)
      else lookupRec info q := by
  induction info with
  | nil =>
    by_cases hq : q = pref
    · subst hq
      simp [updateInfo, lookupRec]
    · have hq' : ¬pref = q := Ne.symm hq
      simp [updateInfo, lookupRec, hq, hq']
  | cons hd tl ih =>
    obtain ⟨p0, d0⟩ := hd
    by_cases h0 : p0 = pref
    · subst h0
      by_cases hq : q = p0
      · subst hq
        simp [updateInfo, lookupRec]
      · have hq' : ¬p0 = q := Ne.symm hq
        simp [updateInfo, lookupRec, hq, hq']
    · by_cases hq : q = p0
      · subst hq
        have h0' : ¬pref = q := Ne.symm h0
        simp [updateInfo, lookupRec, h0, h0']
      · have hq' : ¬p0 = q := Ne.symm hq
        simp [updateInfo, lookupRec, h0, ih, hq']

theorem fieldOf_scanStep (acc : List (String × ContrastRec)) (c : String)
    (p : String) (role : Role) :
    fieldOf (lookupRec (scanStep acc c) p) role =
      if matchCol c = some (role, p) then some c
      else fieldOf (lookupRec acc p) role := by
  cases hm : matchCol c with
  | none => simp [scanStep, hm]
  | some rp =>
    obtain ⟨role', pref⟩ := rp
    simp only [scanStep, hm]
    rw [lookup_updateInfo]
    by_cases hp : p = pref
    · subst hp
      rw [if_pos rfl, fieldOf_some, getRole_setRole]
      by_cases hr : role = role'
      · subst hr
        simp
      · have hr' : ¬role' = role := Ne.symm hr
        rw [if_neg hr, if_neg (by simp [hr'])]
        cases hl : lookupRec acc p with
        | none => simp [fieldOf_none, getRole_emptyRec]
        | some d0 => simp [fieldOf_some]
    · have hp' : ¬pref = p := Ne.symm hp
      rw [if_neg hp, if_neg (by simp [hp'])]

theorem scan_field (cols : List String) :
    ∀ (acc : List (String × ContrastRec)) (p : String) (role : Role),
      fieldOf (lookupRec (cols.foldl scanStep acc) p) role =
        lastMatchAux cols role p (fieldOf (lookupRec acc p) role) := by
  induction cols with
  | nil => intro acc p role; simp [lastMatchAux]
  | cons c cs ih =>
    intro acc p role
    rw [List.foldl_cons, ih, fieldOf_scanStep]
    simp [lastMatchAux, List.foldl_cons]

theorem keys_updateInfo (info : List (String × ContrastRec)) (pref : String)
    (role : Role) (col : String) :
    (updateInfo info pref role col).map Prod.fst =
      insKey (info.map Prod.fst) pref := by
  induction info with
  | nil => simp [updateInfo, insKey]
  | cons hd tl ih =>
    obtain ⟨p0, d0⟩ := hd
    by_cases h0 : p0 = pref
    · subst h0
      simp [updateInfo, insKey]
    · have h0' : ¬pref = p0 := Ne.symm h0
      by_cases hmem : pref ∈ tl.map Prod.fst
      · simp [updateInfo, h0, ih, insKey, hmem, h0']
      · simp [updateInfo, h0, ih, insKey, hmem, h0']

theorem keys_scanStep (acc : List (String × ContrastRec)) (c : String) :
    (scanStep acc c).map Prod.fst = insStep (acc.map Prod.fst) c := by
  cases hm : matchCol c with
  | none => simp [scanStep, insStep, colPref, hm]
  | some rp =>
    obtain ⟨role, pref⟩ := rp
    simp [scanStep, insStep, colPref, hm, keys_updateInfo]

theorem scan_keys (cols : List String) :
    ∀ acc : List (String × ContrastRec),
      (cols.foldl scanStep acc).map Prod.fst =
        cols.foldl insStep (acc.map Prod.fst) := by
  induction cols with
  | nil => intro acc; rfl
  | cons c cs ih =>
    intro acc
    rw [List.foldl_cons, ih, keys_scanStep, List.foldl_cons]

theorem mem_insKey (ks : List String) (p q : String) :
    q ∈ insKey ks p ↔ q ∈ ks ∨ q = p := by
  by_cases h : p ∈ ks
  · simp only [insKey, if_pos h]
    constructor
    · exact Or.inl
    · rintro (hq | rfl)
      · exact hq
      · exact h
  · simp [insKey, if_neg h]

theorem mem_insStep (ks : List String) (c : String) (q : String) :
    q ∈ insStep ks c ↔ q ∈ ks ∨ colPref c = some q := by
  cases hm : colPref c with
  | none => simp [insStep, hm]
  | some pr =>
    simp only [insStep, hm, mem_insKey, Option.some.injEq]
    constructor
    · rintro (hq | rfl)
      · exact Or.inl hq
      · exact Or.inr rfl
    · rintro (hq | rfl)
      · exact Or.inl hq
      · exact Or.inr rfl

theorem insFold_mem (cols : List String) :
    ∀ (ks : List String) (q : String),
      q ∈ cols.foldl insStep ks ↔
        q ∈ ks ∨ ∃ c ∈ cols, colPref c = some q := by
  induction cols with
  | nil => intro ks q; simp
  | cons c cs ih =>
    intro ks q
    rw [List.foldl_cons, ih, mem_insStep]
    constructor
    · rintro ((hq | hc) | ⟨c', hc', hq⟩)
      · exact Or.inl hq
      · exact Or.inr ⟨c, List.mem_cons_self _ _, hc⟩
      · exact Or.inr ⟨c', List.mem_cons_of_mem _ hc', hq⟩
    · rintro (hq | ⟨c', hc', hq⟩)
      · exact Or.inl (Or.inl hq)
      · rcases List.mem_cons.mp hc' with rfl | h
        · exact Or.inl (Or.inr hq)
        · exact Or.inr ⟨c', h, hq⟩

theorem insKey_nodup (ks : List String) (p : String) (h : ks.Nodup) :
    (insKey ks p).Nodup := by
  by_cases hp : p ∈ ks
  · simpa [insKey, hp] using h
  · simp [insKey, hp, List.nodup_append, h]

theorem insFold_nodup (cols : List String) :
    ∀ ks : List String, ks.Nodup → (cols.foldl insStep ks).Nodup := by
  induction cols with
  | nil => intro ks h; exact h
  | cons c cs ih =>
    intro ks h
    rw [List.foldl_cons]
    refine ih _ ?_
    cases hm : colPref c with
    | none => simpa [insStep, hm] using h
    | some pr => simpa [insStep, hm] using insKey_nodup ks pr h

theorem scan_keys_nodup (cols : List String) :
    ((cols.foldl scanStep []).map Prod.fst).Nodup := by
  rw [scan_keys]
  exact insFold_nodup cols [] (by simp)

theorem lookupRec_mem {l : List (String × ContrastRec)} {p : String}
    {d : ContrastRec} (h : lookupRec l p = some d) : (p, d) ∈ l := by
  induction l with
  | nil => cases h
  | cons hd tl ih =>
    obtain ⟨p0, d0⟩ := hd
    by_cases h0 : p0 = p
    · subst h0
      simp [lookupRec] at h
      subst h
      exact List.mem_cons_self _ _
    · simp [lookupRec, h0] at h
      exact List.mem_cons_of_mem _ (ih h)

theorem mem_lookupRec {l : List (String × ContrastRec)}
    (hnd : (l.map Prod.fst).Nodup) {p : String} {d : ContrastRec}
    (h : (p, d) ∈ l) : lookupRec l p = some d := by
  induction l with
  | nil => cases h
  | cons hd tl ih =>
    obtain ⟨p0, d0⟩ := hd
    rcases List.mem_cons.mp h with heq | htl
    · injection heq with h1 h2
      subst h1
      subst h2
      simp [lookupRec]
    · have hp0 : p0 ≠ p := by
        rintro rfl
        exact (List.nodup_cons.mp hnd).1
          (List.mem_map.mpr ⟨(p0, d), htl, rfl⟩)
      simp only [lookupRec, if_neg hp0]
      exact ih (List.nodup_cons.mp hnd).2 htl

theorem lookupRec_isSome_iff {l : List (String × ContrastRec)} {p : String} :
    (∃ d, lookupRec l p = some d) ↔ p ∈ l.map Prod.fst := by
  induction l with
  | nil => simp [lookupRec]
  | cons hd tl ih =>
    obtain ⟨p0, d0⟩ := hd
    by_cases h0 : p0 = p
    · subst h0
      simp [lookupRec]
    · have h0' : ¬p = p0 := Ne.symm h0
      simp only [lookupRec, if_neg h0, List.map_cons, List.mem_cons]
      rw [ih]
      simp [h0']

theorem lastMatchAux_or (cols : List String) (role : Role) (p : String) :
    ∀ init : Option String,
      lastMatchAux cols role p init = optOr (lastMatch cols role p) init := by
  induction cols with
  | nil => intro init; simp [lastMatchAux, lastMatch, optOr]
  | cons c cs ih =>
    intro init
    have hstep : ∀ j : Option String,
        lastMatchAux (c :: cs) role p j =
          lastMatchAux cs role p
            (if matchCol c = some (role, p) then some c else j) := by
      intro j; simp [lastMatchAux, List.foldl_cons]
    rw [hstep, ih]
    rw [show lastMatch (c :: cs) role p =
      lastMatchAux cs role p
        (if matchCol c = some (role, p) then some c else none) from hstep none]
    rw [ih]
    by_cases hc : matchCol c = some (role, p) <;>
      cases hL : lastMatch cs role p <;> simp [optOr, hc, hL]

theorem lastMatch_cons (c : String) (cs : List String) (role : Role)
    (p : String) :
    lastMatch (c :: cs) role p =
      optOr (lastMatch cs role p)
        (if matchCol c = some (role, p) then some c else none) := by
  have h : lastMatch (c :: cs) role p =
      lastMatchAux cs role p
        (if matchCol c = some (role, p) then some c else none) := by
    simp [lastMatch, lastMatchAux, List.foldl_cons]
  rw [h, lastMatchAux_or]

theorem lastMatch_isSome_iff (cols : List String) (role : Role) (p : String) :
    (lastMatch cols role p).isSome = true ↔
      ∃ c ∈ cols, matchCol c = some (role, p) := by
  induction cols with
  | nil => simp [lastMatch, lastMatchAux]
  | cons c cs ih =>
    rw [lastMatch_cons]
    by_cases hc : matchCol c = some (role, p) <;>
      cases hL : lastMatch cs role p <;>
        simp_all [optOr]

theorem lastMatch_eq_some {cols : List String} {role : Role} {p c : String}
    (h : lastMatch cols role p = some c) :
    c ∈ cols ∧ matchCol c = some (role, p) := by
  induction cols with
  | nil => simp [lastMatch, lastMatchAux] at h
  | cons c0 cs ih =>
    rw [lastMatch_cons] at h
    cases hL : lastMatch cs role p with
    | some x =>
      rw [hL] at h
      simp [optOr] at h
      subst h
      obtain ⟨hm, hmc⟩ := ih hL
      exact ⟨List.mem_cons_of_mem _ hm, hmc⟩
    | none =>
      rw [hL] at h
      by_cases hc : matchCol c0 = some (role, p)
      · simp [optOr, hc] at h
        subst h
        exact ⟨List.mem_cons_self _ _, hc⟩
      · simp [optOr, hc] at h

theorem detectar_mem_iff {cols : List String} {p : String} {d : ContrastRec} :
    (p, d) ∈ detectar_contrastes cols ↔
      lookupRec (cols.foldl scanStep []) p = some d ∧ validRec d = true := by
  unfold detectar_contrastes
  rw [List.mem_filter]
  constructor
  · rintro ⟨hmem, hval⟩
    exact ⟨mem_lookupRec (scan_keys_nodup cols) hmem, hval⟩
  · rintro ⟨hlk, hval⟩
    exact ⟨lookupRec_mem hlk, hval⟩

theorem detectar_fields {cols : List String} {p : String} {d : ContrastRec}
    (h : lookupRec (cols.foldl scanStep []) p = some d) :
    d.logFC = lastMatch cols Role.logFC p ∧
    d.AveExpr = lastMatch cols Role.AveExpr p ∧
    d.adjP = lastMatch cols Role.adjP p ∧
    d.P = lastMatch cols Role.P p := by
  have hf := scan_field cols [] p
  have h1 := hf Role.logFC
  have h2 := hf Role.AveExpr
  have h3 := hf Role.adjP
  have h4 := hf Role.P
  rw [h] at h1 h2 h3 h4
  refine ⟨?_, ?_, ?_, ?_⟩
  · simpa [fieldOf, getRole, lookupRec, lastMatch] using h1
  · simpa [fieldOf, getRole, lookupRec, lastMatch] using h2
  · simpa [fieldOf, getRole, lookupRec, lastMatch] using h3
  · simpa [fieldOf, getRole, lookupRec, lastMatch] using h4

theorem colPref_eq_some_iff {c p : String} :
    colPref c = some p ↔ ∃ role, matchCol c = some (role, p) := by
  cases hm : matchCol c with
  | none => simp [colPref, hm]
  | some rp =>
    obtain ⟨role, q⟩ := rp
    constructor
    · intro h
      have hq : q = p := by simpa [colPref, hm] using h
      exact ⟨role, by rw [hq]⟩
    · rintro ⟨role', h⟩
      injection h with h'
      injection h' with hr hq
      simp [colPref, hm, hq]

theorem mem_scan_keys_iff {cols : List String} {p : String} :
    p ∈ (cols.foldl scanStep []).map Prod.fst ↔
      ∃ c ∈ cols, ∃ role, matchCol c = some (role, p) := by
  rw [scan_keys, insFold_mem]
  simp only [List.map_nil, List.not_mem_nil, false_or]
  constructor
  · rintro ⟨c, hc, hpr⟩
    exact ⟨c, hc, colPref_eq_some_iff.mp hpr⟩
  · rintro ⟨c, hc, role, hpr⟩
    exact ⟨c, hc, colPref_eq_some_iff.mpr ⟨role, hpr⟩⟩

theorem validRec_iff {d : ContrastRec} :
    validRec d = true ↔
      d.logFC.isSome = true ∧ (d.adjP.isSome = true ∨ d.P.isSome = true) := by
  simp [validRec, Bool.and_eq_true, Bool.or_eq_true]

/-- C1: on every ordered sequence of column names, `detectar_contrastes`
returns exactly the prefixes that have a column with suffix `_logFC` and at
least one column with suffix `_adj.P.Val` or `_P.Value` (suffixes matched
case-insensitively, prefix case preserved); the column names bound to the
`logFC`/`adjP`/`P` roles are columns of the input carrying the matching
suffix for that prefix, every present suffix populates its field, and the
output is ordered by insertion order of the first-seen prefix. -/
theorem detectar_contrastes_spec (cols : List String) :
    (∀ p : String,
      (∃ d, (p, d) ∈ detectar_contrastes cols) ↔
        ((∃ c ∈ cols, sufMatchCI "_logFC" c = some p) ∧
          ((∃ c ∈ cols, sufMatchCI "_adj.P.Val" c = some p) ∨
            (∃ c ∈ cols, sufMatchCI "_P.Value" c = some p)))) ∧
    (∀ p d, (p, d) ∈ detectar_contrastes cols →
      (∀ c, d.logFC = some c → c ∈ cols ∧ sufMatchCI "_logFC" c = some p) ∧
      (∀ c, d.adjP = some c → c ∈ cols ∧ sufMatchCI "_adj.P.Val" c = some p) ∧
      (∀ c, d.P = some c → c ∈ cols ∧ sufMatchCI "_P.Value" c = some p) ∧
      ((∃ c ∈ cols, sufMatchCI "_logFC" c = some p) → d.logFC.isSome = true) ∧
      ((∃ c ∈ cols, sufMatchCI "_adj.P.Val" c = some p) →
        d.adjP.isSome = true) ∧
      ((∃ c ∈ cols, sufMatchCI "_P.Value" c = some p) → d.P.isSome = true) ∧
      d.logFC.isSome = true ∧ (d.adjP.isSome = true ∨ d.P.isSome = true)) ∧
    ((detectar_contrastes cols).map Prod.fst).Sublist (firstSeenKeys cols) := by
  refine ⟨?_, ?_, ?_⟩
  · intro p
    constructor
    · rintro ⟨d, hd⟩
      obtain ⟨hlk, hval⟩ := detectar_mem_iff.mp hd
      obtain ⟨hfL, hfA, hfJ, hfP⟩ := detectar_fields hlk
      obtain ⟨hvL, hvAP⟩ := validRec_iff.mp hval
      constructor
      · rw [hfL] at hvL
        obtain ⟨c, hc, hmc⟩ := (lastMatch_isSome_iff cols Role.logFC p).mp hvL
        exact ⟨c, hc, matchCol_logFC_iff.mp hmc⟩
      · rcases hvAP with hvA | hvP
        · rw [hfJ] at hvA
          obtain ⟨c, hc, hmc⟩ :=
            (lastMatch_isSome_iff cols Role.adjP p).mp hvA
          exact Or.inl ⟨c, hc, matchCol_adjP_iff.mp hmc⟩
        · rw [hfP] at hvP
          obtain ⟨c, hc, hmc⟩ := (lastMatch_isSome_iff cols Role.P p).mp hvP
          exact Or.inr ⟨c, hc, matchCol_P_iff.mp hmc⟩
    · rintro ⟨⟨cL, hcL, hmL⟩, hAP⟩
      have hmcL : matchCol cL = some (Role.logFC, p) := matchCol_logFC_iff.mpr hmL
      have hkey : p ∈ (cols.foldl scanStep []).map Prod.fst :=
        mem_scan_keys_iff.mpr ⟨cL, hcL, Role.logFC, hmcL⟩
      obtain ⟨d, hlk⟩ := lookupRec_isSome_iff.mpr hkey
      obtain ⟨hfL, hfA, hfJ, hfP⟩ := detectar_fields hlk
      have hvL : d.logFC.isSome = true := by
        rw [hfL]
        exact (lastMatch_isSome_iff cols Role.logFC p).mpr ⟨cL, hcL, hmcL⟩
      have hvAP : d.adjP.isSome = true ∨ d.P.isSome = true := by
        rcases hAP with ⟨cA, hcA, hmA⟩ | ⟨cP, hcP, hmP⟩
        · refine Or.inl ?_
          rw [hfJ]
          exact (lastMatch_isSome_iff cols Role.adjP p).mpr
            ⟨cA, hcA, matchCol_adjP_iff.mpr hmA⟩
        · refine Or.inr ?_
          rw [hfP]
          exact (lastMatch_isSome_iff cols Role.P p).mpr
            ⟨cP, hcP, matchCol_P_iff.mpr hmP⟩
      exact ⟨d, detectar_mem_iff.mpr ⟨hlk, validRec_iff.mpr ⟨hvL, hvAP⟩⟩⟩
  · intro p d hd
    obtain ⟨hlk, hval⟩ := detectar_mem_iff.mp hd
    obtain ⟨hfL, hfA, hfJ, hfP⟩ := detectar_fields hlk
    obtain ⟨hvL, hvAP⟩ := validRec_iff.mp hval
    refine ⟨?_, ?_, ?_, ?_, ?_, ?_, hvL, hvAP⟩
    · intro c hc
      rw [hfL] at hc
      obtain ⟨hmem, hmc⟩ := lastMatch_eq_some hc
      exact ⟨hmem, matchCol_logFC_iff.mp hmc⟩
    · intro c hc
      rw [hfJ] at hc
      obtain ⟨hmem, hmc⟩ := lastMatch_eq_some hc
      exact ⟨hmem, matchCol_adjP_iff.mp hmc⟩
    · intro c hc
      rw [hfP] at hc
      obtain ⟨hmem, hmc⟩ := lastMatch_eq_some hc
      exact ⟨hmem, matchCol_P_iff.mp hmc⟩
    · rintro ⟨c, hc, hm⟩
      rw [hfL]
      exact (lastMatch_isSome_iff cols Role.logFC p).mpr
        ⟨c, hc, matchCol_logFC_iff.mpr hm⟩
    · rintro ⟨c, hc, hm⟩
      rw [hfJ]
      exact (lastMatch_isSome_iff cols Role.adjP p).mpr
        ⟨c, hc, matchCol_adjP_iff.mpr hm⟩
    · rintro ⟨c, hc, hm⟩
      rw [hfP]
      exact (lastMatch_isSome_iff cols Role.P p).mpr
        ⟨c, hc, matchCol_P_iff.mpr hm⟩
  · have h1 : (detectar_contrastes cols).Sublist (cols.foldl scanStep []) :=
      List.filter_sublist _
    have h2 := h1.map Prod.fst
    rw [scan_keys] at h2
    exact h2

/-- Witness for C1: columns `["foo", "X_logFC", "X_ADJ.P.VAL"]` (note the
upper-case suffix) register contrast `X`. -/
theorem detectar_contrastes_spec_witness :
    ∃ d, ("X", d) ∈ detectar_contrastes ["foo", "X_logFC", "X_ADJ.P.VAL"] :=
  ((detectar_contrastes_spec ["foo", "X_logFC", "X_ADJ.P.VAL"]).1 "X").mpr
    (by decide)

/-! ## Claims on the classifier, the mask and the resolver -/

/-- C2: `cat` returns `"No eval"` exactly when `logFC` or `padj` is NaN;
otherwise it returns `"Up"` iff `|logFC| ≥ thrLogFC`, `padj ≤ thrPadj` and
`logFC > 0`, `"Down"` iff the thresholds pass and `logFC ≤ 0`, and
`"No sig"` iff the threshold test fails — equality at either threshold
counts as significant (the comparisons are `≥`/`≤`). -/
theorem cat_spec (l p : Option ℚ) (tl tp : ℚ) :
    (cat l p tl tp = "No eval" ↔ (l = none ∨ p = none)) ∧
    (∀ lq pq : ℚ, l = some lq → p = some pq →
      ((cat l p tl tp = "Up" ↔ (tl ≤ |lq| ∧ pq ≤ tp ∧ 0 < lq)) ∧
       (cat l p tl tp = "Down" ↔ (tl ≤ |lq| ∧ pq ≤ tp ∧ lq ≤ 0)) ∧
       (cat l p tl tp = "No sig" ↔ ¬(tl ≤ |lq| ∧ pq ≤ tp)))) := by
  constructor
  · cases l with
    | none => simp [cat]
    | some lq =>
      cases p with
      | none => simp [cat]
      | some pq =>
        simp only [cat]
        by_cases h : |lq| ≥ tl ∧ pq ≤ tp
        · rw [if_pos h]
          by_cases hl : lq > 0
          · simp [hl]
          · simp [hl]
        · rw [if_neg h]
          simp
  · rintro lq pq rfl rfl
    simp only [cat]
    by_cases h : |lq| ≥ tl ∧ pq ≤ tp
    · rw [if_pos h]
      by_cases hl : lq > 0
      · rw [if_pos hl]
        refine ⟨⟨fun _ => ⟨h.1, h.2, hl⟩, fun _ => rfl⟩, ?_, ?_⟩
        · constructor
          · intro hc
            exact absurd hc (by decide)
          · rintro ⟨-, -, hle⟩
            exact absurd hl (not_lt.mpr hle)
        · constructor
          · intro hc
            exact absurd hc (by decide)
          · intro hc
            exact absurd ⟨h.1, h.2⟩ hc
      · rw [if_neg hl]
        refine ⟨?_, ⟨fun _ => ⟨h.1, h.2, not_lt.mp hl⟩, fun _ => rfl⟩, ?_⟩
        · constructor
          · intro hc
            exact absurd hc (by decide)
          · rintro ⟨-, -, hpos⟩
            exact absurd hpos hl
        · constructor
          · intro hc
            exact absurd hc (by decide)
          · intro hc
            exact absurd ⟨h.1, h.2⟩ hc
    · rw [if_neg h]
      refine ⟨?_, ?_, ⟨fun _ => h, fun _ => rfl⟩⟩
      · constructor
        · intro hc
          exact absurd hc (by decide)
        · rintro ⟨h1, h2, -⟩
          exact absurd ⟨h1, h2⟩ h
      · constructor
        · intro hc
          exact absurd hc (by decide)
        · rintro ⟨h1, h2, -⟩
          exact absurd ⟨h1, h2⟩ h

/-- Witness for C2 at `logFC = 2`, `padj = 0.01`, thresholds `(1, 0.05)`. -/
theorem cat_spec_witness :
    (cat (some 2) (some (1/100)) 1 (5/100) = "Up" ↔
      ((1 : ℚ) ≤ |(2 : ℚ)| ∧ (1/100 : ℚ) ≤ 5/100 ∧ (0 : ℚ) < 2)) ∧
    (cat (some 2) (some (1/100)) 1 (5/100) = "Down" ↔
      ((1 : ℚ) ≤ |(2 : ℚ)| ∧ (1/100 : ℚ) ≤ 5/100 ∧ (2 : ℚ) ≤ 0)) ∧
    (cat (some 2) (some (1/100)) 1 (5/100) = "No sig" ↔
      ¬((1 : ℚ) ≤ |(2 : ℚ)| ∧ (1/100 : ℚ) ≤ 5/100)) :=
  (cat_spec (some 2) (some (1/100)) 1 (5/100)).2 2 (1/100) rfl rfl

/-- C7: `cat` is monotonic in the thresholds: a `"No sig"` row stays
non-significant when `thrLogFC` grows or `thrPadj` shrinks, and an
`"Up"`/`"Down"` row stays significant when `thrLogFC` shrinks or `thrPadj`
grows. -/
theorem cat_monotone (l p : Option ℚ) (tl tp tl' tp' : ℚ) :
    (cat l p tl tp = "No sig" → tl ≤ tl' → tp' ≤ tp →
      cat l p tl' tp' ≠ "Up" ∧ cat l p tl' tp' ≠ "Down") ∧
    ((cat l p tl tp = "Up" ∨ cat l p tl tp = "Down") → tl' ≤ tl → tp ≤ tp' →
      cat l p tl' tp' ≠ "No sig") := by
  cases l with
  | none => simp [cat]
  | some lq =>
    cases p with
    | none => simp [cat]
    | some pq =>
      have h1 := (cat_spec (some lq) (some pq) tl tp).2 lq pq rfl rfl
      have h2 := (cat_spec (some lq) (some pq) tl' tp').2 lq pq rfl rfl
      constructor
      · intro hns hl hp
        have hfail : ¬(tl ≤ |lq| ∧ pq ≤ tp) := h1.2.2.mp hns
        have hfail' : ¬(tl' ≤ |lq| ∧ pq ≤ tp') := by
          rintro ⟨ha, hb⟩
          exact hfail ⟨le_trans hl ha, le_trans hb hp⟩
        constructor
        · intro hc
          obtain ⟨ha, hb, -⟩ := h2.1.mp hc
          exact hfail' ⟨ha, hb⟩
        · intro hc
          obtain ⟨ha, hb, -⟩ := h2.2.1.mp hc
          exact hfail' ⟨ha, hb⟩
      · intro hsig hl hp hc
        have hfail' : ¬(tl' ≤ |lq| ∧ pq ≤ tp') := h2.2.2.mp hc
        rcases hsig with hup | hdn
        · obtain ⟨ha, hb, -⟩ := h1.1.mp hup
          exact hfail' ⟨le_trans hl ha, le_trans hb hp⟩
        · obtain ⟨ha, hb, -⟩ := h1.2.1.mp hdn
          exact hfail' ⟨le_trans hl ha, le_trans hb hp⟩

/-- Witness for C7: a `"No sig"` row stays non-significant after raising
`thrLogFC` to 2 and lowering `thrPadj` to 0.01. -/
theorem cat_monotone_witness :
    cat (some (1/2)) (some (2/100)) 2 (1/100) ≠ "Up" ∧
    cat (some (1/2)) (some (2/100)) 2 (1/100) ≠ "Down" :=
  (cat_monotone (some (1/2)) (some (2/100)) 1 (5/100) 2 (1/100)).1
    (by
      have habs : |(1/2 : ℚ)| = 1/2 := abs_of_nonneg (by norm_num)
      norm_num [cat, habs]) (by norm_num) (by norm_num)

/-- C10: per row, the vectorized DEGs filter (line 231) selects exactly the
rows the classifier labels `"Up"` or `"Down"` at the same thresholds, and a
row with NaN `logFC` or `padj` is never selected. -/
theorem mask_cat_equiv (l p : Option ℚ) (tl tp : ℚ) :
    (mask l p tl tp = true ↔
      (cat l p tl tp = "Up" ∨ cat l p tl tp = "Down")) ∧
    ((l = none ∨ p = none) → mask l p tl tp = false) := by
  constructor
  · cases l with
    | none => simp [mask, cat]
    | some lq =>
      cases p with
      | none => simp [mask, cat]
      | some pq =>
        have h1 := (cat_spec (some lq) (some pq) tl tp).2 lq pq rfl rfl
        rw [h1.1, h1.2.1]
        simp only [mask, Bool.and_eq_true, decide_eq_true_eq]
        constructor
        · rintro ⟨ha, hb⟩
          by_cases hl : 0 < lq
          · exact Or.inl ⟨ha, hb, hl⟩
          · exact Or.inr ⟨ha, hb, not_lt.mp hl⟩
        · rintro (⟨ha, hb, -⟩ | ⟨ha, hb, -⟩) <;> exact ⟨ha, hb⟩
  · rintro (rfl | rfl)
    · simp [mask]
    · cases l <;> simp [mask]

/-- Witness for C10: a NaN `logFC` is never selected by the mask. -/
theorem mask_cat_equiv_witness : mask none (some 1) 1 (5/100) = false :=
  (mask_cat_equiv none (some 1) 1 (5/100)).2 (Or.inl rfl)

theorem find?_min_indexOf {α : Type} [DecidableEq α] (l : List α)
    (p : α → Bool) (a : α) (h : l.find? p = some a) :
    ∀ b ∈ l, p b = true → l.indexOf a ≤ l.indexOf b := by
  induction l with
  | nil => cases h
  | cons x xs ih =>
    by_cases hx : p x = true
    · rw [List.find?_cons_of_pos _ hx] at h
      injection h with h
      subst h
      intro b _ _
      simp [List.indexOf_cons_self]
    · rw [List.find?_cons_of_neg _ (by simpa using hx)] at h
      have ha : a ∈ xs := List.mem_of_find?_eq_some h
      have hax : ¬a = x := by
        rintro rfl
        exact hx (List.find?_some h)
      intro b hb hpb
      have hbx : ¬b = x := by
        rintro rfl
        exact hx hpb
      rcases List.mem_cons.mp hb with rfl | hb'
      · exact absurd rfl hbx
      · have h1 := ih h b hb' hpb
        rw [List.indexOf_cons_ne _ (fun hh : x = a => hax hh.symm),
          List.indexOf_cons_ne _ (fun hh : x = b => hbx hh.symm)]
        exact Nat.succ_le_succ h1

/-- C6: the gene-column resolver returns the first name of the fixed
priority list `SYMBOL, gene_id, Geneid, GeneID, gene, Gene, locus_tag` that
is present among the columns (case-sensitively, priority-list order winning
over column order), `none` when no candidate is present, and in particular
returns `"SYMBOL"` on `["Geneid", "SYMBOL", "foo"]`. -/
theorem elegir_columna_gen_spec (cols : List String) :
    (elegir_columna_gen cols = none ↔ ∀ c ∈ candidatos, c ∉ cols) ∧
    (∀ c, elegir_columna_gen cols = some c →
      c ∈ candidatos ∧ c ∈ cols ∧
        ∀ d ∈ candidatos, d ∈ cols →
          candidatos.indexOf c ≤ candidatos.indexOf d) ∧
    elegir_columna_gen ["Geneid", "SYMBOL", "foo"] = some "SYMBOL" := by
  refine ⟨?_, ?_, by decide⟩
  · rw [elegir_columna_gen, List.find?_eq_none]
    constructor
    · intro h c hc hmem
      exact h c hc (by simpa using hmem)
    · intro h c hc hcont
      exact h c hc (by simpa using hcont)
  · intro c hc
    refine ⟨List.mem_of_find?_eq_some hc, ?_, ?_⟩
    · have := List.find?_some hc
      simpa using this
    · intro d hd hdmem
      exact find?_min_indexOf candidatos _ c hc d hd (by simpa using hdmem)

/-- Witness for C6: on columns `["Geneid", "SYMBOL", "foo"]` the resolver
returns a candidate present in the columns with minimal priority index. -/
theorem elegir_columna_gen_spec_witness :
    "SYMBOL" ∈ candidatos ∧ "SYMBOL" ∈ ["Geneid", "SYMBOL", "foo"] ∧
      ∀ d ∈ candidatos, d ∈ ["Geneid", "SYMBOL", "foo"] →
        candidatos.indexOf "SYMBOL" ≤ candidatos.indexOf d :=
  (elegir_columna_gen_spec ["Geneid", "SYMBOL", "foo"]).2.1 "SYMBOL" (by decide)



/-! ## Claims on the display-name transform -/

theorem stripLit_self (lit : List Char) :
    ∀ cs : List Char, stripLit lit (lit ++ cs) = some cs := by
  induction lit with
  | nil => intro cs; rfl
  | cons l ls ih => intro cs; simp [stripLit, ih]

theorem stripLit_some {lit : List Char} :
    ∀ {cs r : List Char}, stripLit lit cs = some r → cs = lit ++ r := by
  induction lit with
  | nil =>
    intro cs r h
    rw [List.nil_append]
    exact Option.some.inj h
  | cons l ls ih =>
    intro cs r h
    cases cs with
    | nil => cases h
    | cons c cs =>
      by_cases hc : c = l
      · subst hc
        simp only [stripLit, if_pos rfl] at h
        simp [ih h]
      · simp [stripLit, hc] at h

theorem takeWhile_middle {p : Char → Bool} (ds : List Char) (c : Char)
    (rest : List Char) (hds : ∀ x ∈ ds, p x = true) (hc : p c = false) :
    (ds ++ c :: rest).takeWhile p = ds ∧
      (ds ++ c :: rest).dropWhile p = c :: rest := by
  induction ds with
  | nil => simp [List.takeWhile_cons, List.dropWhile_cons, hc]
  | cons d ds ih =>
    have hd : p d = true := hds d (List.mem_cons_self _ _)
    have ih' := ih fun x hx => hds x (List.mem_cons_of_mem _ hx)
    simp [List.takeWhile_cons, List.dropWhile_cons, hd, ih'.1, ih'.2]

theorem pretty_core_build (ds tok rest : List Char) (hds : ds ≠ [])
    (hdig : ∀ c ∈ ds, c.isDigit = true) (htok : tok ≠ [])
    (hund : ∀ c ∈ tok, notUnd c = true) :
    pretty_core ("PRJNA".data ++ (ds ++ '_' :: (tok ++ '_' :: rest))) =
      some rest := by
  have h1 := takeWhile_middle (p := Char.isDigit) ds '_' (tok ++ '_' :: rest)
    hdig (by decide)
  have h2 := takeWhile_middle (p := notUnd) tok '_' rest hund (by decide)
  simp only [pretty_core, stripLit_self, h1.1, h1.2, if_neg hds, if_pos rfl,
    h2.1, h2.2, if_neg htok]
  simp

theorem pretty_core_some {cs r : List Char} (h : pretty_core cs = some r) :
    ∃ ds tok, ds ≠ [] ∧ (∀ c ∈ ds, c.isDigit = true) ∧ tok ≠ [] ∧
      (∀ c ∈ tok, notUnd c = true) ∧
      cs = "PRJNA".data ++ (ds ++ '_' :: (tok ++ '_' :: r)) := by
  unfold pretty_core at h
  cases hs : stripLit "PRJNA".data cs with
  | none => rw [hs] at h; cases h
  | some r1 =>
    rw [hs] at h
    dsimp only at h
    by_cases hds : r1.takeWhile Char.isDigit = []
    · rw [if_pos hds] at h; cases h
    · rw [if_neg hds] at h
      cases hdrop : r1.dropWhile Char.isDigit with
      | nil => rw [hdrop] at h; cases h
      | cons c2 r3 =>
        rw [hdrop] at h
        dsimp only at h
        by_cases hc2 : c2 = '_'
        · rw [if_pos hc2] at h
          subst hc2
          by_cases htok : r3.takeWhile notUnd = []
          · rw [if_pos htok] at h; cases h
          · rw [if_neg htok] at h
            cases hdrop2 : r3.dropWhile notUnd with
            | nil => rw [hdrop2] at h; cases h
            | cons c4 r5 =>
              rw [hdrop2] at h
              dsimp only at h
              by_cases hc4 : c4 = '_'
              · rw [if_pos hc4] at h
                subst hc4
                injection h with h5
                subst h5
                refine ⟨r1.takeWhile Char.isDigit, r3.takeWhile notUnd, hds,
                  ?_, htok, ?_, ?_⟩
                · exact fun c hc => List.mem_takeWhile_imp hc
                · exact fun c hc => List.mem_takeWhile_imp hc
                · have e1 : cs = "PRJNA".data ++ r1 := stripLit_some hs
                  have e2 : r1.takeWhile Char.isDigit ++ '_' :: r3 = r1 := by
                    rw [← hdrop]
                    exact List.takeWhile_append_dropWhile _ _
                  have e3 : r3.takeWhile notUnd ++ '_' :: r5 = r3 := by
                    rw [← hdrop2]
                    exact List.takeWhile_append_dropWhile _ _
                  calc cs = "PRJNA".data ++ r1 := e1
                    _ = "PRJNA".data ++ (r1.takeWhile Char.isDigit ++
                        '_' :: r3) := by rw [e2]
                    _ = "PRJNA".data ++ (r1.takeWhile Char.isDigit ++
                        '_' :: (r3.takeWhile notUnd ++ '_' :: r5)) := by
                      rw [e3]
              · rw [if_neg hc4] at h; cases h
        · rw [if_neg hc2] at h; cases h

/-- C9: the display-name transform strips a leading
`PRJNA<digits>_<token>_` segment (one or more digits, token nonempty and
containing no underscore) and returns the remainder; identifiers not of
that shape are returned unchanged; in particular
`"PRJNA123456_mouse_heart_vs_liver"` displays as `"heart_vs_liver"` and
`"CustomContrastA"` is unchanged. -/
theorem pretty_contrast_name_spec :
    (∀ ds tok rest : List Char, ds ≠ [] → (∀ c ∈ ds, c.isDigit = true) →
      tok ≠ [] → (∀ c ∈ tok, notUnd c = true) →
      pretty_contrast_name
        (String.mk ("PRJNA".data ++ (ds ++ '_' :: (tok ++ '_' :: rest)))) =
        String.mk rest) ∧
    (∀ cs r : List Char, pretty_core cs = some r →
      ∃ ds tok, ds ≠ [] ∧ (∀ c ∈ ds, c.isDigit = true) ∧ tok ≠ [] ∧
        (∀ c ∈ tok, notUnd c = true) ∧
        cs = "PRJNA".data ++ (ds ++ '_' :: (tok ++ '_' :: r))) ∧
    (∀ s : String, pretty_core s.data = none → pretty_contrast_name s = s) ∧
    pretty_contrast_name "PRJNA123456_mouse_heart_vs_liver" =
      "heart_vs_liver" ∧
    pretty_contrast_name "CustomContrastA" = "CustomContrastA" := by
  refine ⟨?_, ?_, ?_, by decide, by decide⟩
  · intro ds tok rest hds hdig htok hund
    have hc := pretty_core_build ds tok rest hds hdig htok hund
    have hc' : pretty_core
        (['P', 'R', 'J', 'N', 'A'] ++ (ds ++ '_' :: (tok ++ '_' :: rest))) =
        some rest := hc
    simp only [pretty_contrast_name]
    rw [hc']
  · exact fun cs r h => pretty_core_some h
  · intro s h
    simp [pretty_contrast_name, h]

/-- Witness for C9: digits `1`, token `m`, remainder `x`. -/
theorem pretty_contrast_name_spec_witness :
    pretty_contrast_name
      (String.mk ("PRJNA".data ++ (['1'] ++ '_' :: (['m'] ++ '_' :: "x".data)))) =
      String.mk "x".data :=
  pretty_contrast_name_spec.1 ['1'] ['m'] "x".data (by decide) (by decide)
    (by decide) (by decide)

/-! ## Claims on the loader -/

/-- C4 (refutation): with `sepChoice = "auto"` and a filename not ending in
`.tsv` or a spreadsheet extension, the separator `read_table` passes to the
final parse is always `","`: the sniffed delimiter is read from
`sniff_df.attrs.get("delimiter", ",")`, and `pandas.read_csv` leaves
`DataFrame.attrs` empty, so the lookup always falls back to comma.  A
semicolon-separated `.csv` is therefore parsed with `","` into a single
column, contrary to the claim. -/
theorem read_table_auto_always_comma :
    read_table_sep "data.csv" "auto" = some "," ∧
    read_table_model "a;b\n1;2\n" "data.csv" "auto" =
      some (Except.ok (["a;b"], [["1;2"]])) :=
  ⟨rfl, rfl⟩

/-- C8 (counterexample): a header-only upload parses into a zero-row table
and is returned successfully — no `LoadError` (or any error) is surfaced
for zero-row tables. -/
theorem read_table_zero_rows_ok :
    read_table_model "gene,X_logFC,X_adj.P.Val" "t.csv" "," =
      some (Except.ok (["gene", "X_logFC", "X_adj.P.Val"], [])) := rfl

/-- C8 (amended): `read_table` wraps nothing in a `LoadError`; a completely
empty upload raises `pandas.errors.EmptyDataError`, which propagates
uncaught, while a header-only upload loads successfully as a zero-row table
and is adopted as session state. -/
theorem read_table_error_behavior :
    read_table_model "" "t.csv" "," = some (Except.error LoadErr.emptyData) ∧
    read_table_model "gene,X_logFC" "t.csv" "," =
      some (Except.ok (["gene", "X_logFC"], [])) :=
  ⟨rfl, rfl⟩

/-! ## Lemmas on the table operations -/

theorem map_fst_renameCols (df : DF) (f : String → String) :
    (renameCols df f).map Prod.fst = (df.map Prod.fst).map f := by
  induction df with
  | nil => rfl
  | cons hd tl ih => simp [renameCols, ih]

theorem getCol_renameCols_eq (df : DF) (f : String → String) (m n : String)
    (hm : f n = m) (huniq : ∀ k ∈ df.map Prod.fst, f k = m → k = n) :
    getCol (renameCols df f) m = getCol df n := by
  induction df with
  | nil => rfl
  | cons hd tl ih =>
    obtain ⟨k, v⟩ := hd
    by_cases hk : f k = m
    · have hkn : k = n := huniq k (List.mem_cons_self _ _) hk
      subst hkn
      simp [renameCols, getCol, hk]
    · have hkn : ¬k = n := fun h => hk (h ▸ hm)
      simp only [renameCols, List.map_cons, getCol, if_neg hk, if_neg hkn]
      exact ih fun k2 hk2 => huniq k2 (List.mem_cons_of_mem _ hk2)

theorem getCol_renameCols_none (df : DF) (f : String → String) (m : String)
    (h : ∀ k ∈ df.map Prod.fst, ¬f k = m) :
    getCol (renameCols df f) m = none := by
  induction df with
  | nil => rfl
  | cons hd tl ih =>
    obtain ⟨k, v⟩ := hd
    simp only [renameCols, List.map_cons, getCol,
      if_neg (h k (List.mem_cons_self _ _))]
    exact ih fun k2 hk2 => h k2 (List.mem_cons_of_mem _ hk2)

theorem getCol_append (df l : DF) (m : String) :
    getCol (df ++ l) m =
      match getCol df m with
      | some v => some v
      | none => getCol l m := by
  induction df with
  | nil => rfl
  | cons hd tl ih =>
    obtain ⟨k, v⟩ := hd
    by_cases hk : k = m
    · simp [getCol, hk]
    · simp [getCol, hk, ih]

theorem getCol_mapCol_eq (df : DF) (m : String) (f : Cell → Cell) :
    getCol (mapCol df m f) m = (getCol df m).map (List.map f) := by
  induction df with
  | nil => rfl
  | cons hd tl ih =>
    obtain ⟨k, v⟩ := hd
    simp only [mapCol, List.map_cons] at ih ⊢
    by_cases hk : k = m
    · subst hk
      rw [show ((if (k, v).1 = k then ((k, v).1, (k, v).2.map f) else (k, v))) =
        ((k, v).1, (k, v).2.map f) from if_pos rfl]
      simp [getCol]
    · rw [show ((if (k, v).1 = m then ((k, v).1, (k, v).2.map f) else (k, v))) =
        (k, v) from if_neg hk]
      simp only [getCol, if_neg hk]
      exact ih

theorem getCol_mapCol_ne (df : DF) (m : String) (f : Cell → Cell)
    (n : String) (h : ¬n = m) :
    getCol (mapCol df m f) n = getCol df n := by
  induction df with
  | nil => rfl
  | cons hd tl ih =>
    obtain ⟨k, v⟩ := hd
    simp only [mapCol, List.map_cons] at ih ⊢
    by_cases hk : k = m
    · subst hk
      have hkn : ¬k = n := fun hh => h hh.symm
      rw [show ((if (k, v).1 = k then ((k, v).1, (k, v).2.map f) else (k, v))) =
        ((k, v).1, (k, v).2.map f) from if_pos rfl]
      simp only [getCol, if_neg hkn]
      exact ih
    · rw [show ((if (k, v).1 = m then ((k, v).1, (k, v).2.map f) else (k, v))) =
        (k, v) from if_neg hk]
      by_cases hkn : k = n
      · subst hkn
        simp [getCol]
      · simp only [getCol, if_neg hkn]
        exact ih

theorem getCol_isSome_iff (df : DF) (n : String) :
    (getCol df n).isSome = true ↔ n ∈ df.map Prod.fst := by
  induction df with
  | nil => simp [getCol]
  | cons hd tl ih =>
    obtain ⟨k, v⟩ := hd
    by_cases hk : k = n
    · simp [getCol, hk]
    · have hk2 : ¬n = k := fun hh => hk hh.symm
      simp [getCol, hk, hk2, ih]

theorem selectCols_map_fst (df : DF) (ns : List String) :
    (selectCols df ns).map Prod.fst =
      ns.filter fun n => (getCol df n).isSome := by
  induction ns with
  | nil => rfl
  | cons n ns ih =>
    simp only [selectCols] at ih ⊢
    cases hg : getCol df n with
    | none => simp [List.filterMap_cons, hg, List.filter_cons, ih]
    | some v => simp [List.filterMap_cons, hg, List.filter_cons, ih]

theorem getCol_selectCols_not_mem (df : DF) (ns : List String) (n : String)
    (h : n ∉ ns) : getCol (selectCols df ns) n = none := by
  induction ns with
  | nil => rfl
  | cons m ms ih =>
    have hms : n ∉ ms := fun hh => h (List.mem_cons_of_mem _ hh)
    have hnm : ¬m = n := fun hh => h (hh ▸ List.mem_cons_self _ _)
    have ih2 := ih hms
    simp only [selectCols, List.filterMap_cons] at ih2 ⊢
    cases hg : getCol df m with
    | none => simp [hg, ih2]
    | some v => simp [hg, getCol, hnm, ih2]

theorem getCol_selectCols (df : DF) (ns : List String) (n : String)
    (hnd : ns.Nodup) (hn : n ∈ ns) :
    getCol (selectCols df ns) n = getCol df n := by
  induction ns with
  | nil => cases hn
  | cons m ms ih =>
    obtain ⟨hm, hnd2⟩ := List.nodup_cons.mp hnd
    simp only [selectCols, List.filterMap_cons]
    by_cases hmn : m = n
    · subst hmn
      cases hg : getCol df m with
      | none =>
        have h2 := getCol_selectCols_not_mem df ms m hm
        simp only [selectCols] at h2
        simpa using h2
      | some v => simp [hg, getCol]
    · rcases List.mem_cons.mp hn with rfl | hn2
      · exact absurd rfl hmn
      · have ih2 := ih hnd2 hn2
        simp only [selectCols] at ih2
        cases hg : getCol df m with
        | none => simpa [hg] using ih2
        | some v => simp [hg, getCol, hmn, ih2]

theorem nrows_renameCols (df : DF) (f : String → String) :
    nrowsDF (renameCols df f) = nrowsDF df := by
  cases df with
  | nil => rfl
  | cons hd tl => rfl

theorem getCol_append_left {df : DF} {m : String} {v : List Cell} (l : DF)
    (h : getCol df m = some v) : getCol (df ++ l) m = some v := by
  rw [getCol_append, h]

theorem getCol_append_right {df : DF} {m : String} (l : DF)
    (h : getCol df m = none) : getCol (df ++ l) m = getCol l m := by
  rw [getCol_append, h]

theorem getCol_singleton (m : String) (v : List Cell) :
    getCol [(m, v)] m = some v := by
  simp [getCol]

/-- Behaviour of the coercion / transform / selection tail of the builder on
a table that holds the four canonical columns and no `neg_log10_padj`
column yet. -/
theorem tailBuild_spec (w2 : DF) (vg vl vp va : List Cell)
    (h2g : getCol w2 "gene" = some vg)
    (h2l : getCol w2 "logFC" = some vl)
    (h2p : getCol w2 "padj" = some vp)
    (h2a : getCol w2 "AveExpr" = some va)
    (h2n : getCol w2 "neg_log10_padj" = none) :
    (tailBuild w2).map Prod.fst =
      ["gene", "logFC", "AveExpr", "padj", "neg_log10_padj"] ∧
    getCol (tailBuild w2) "gene" = some vg ∧
    getCol (tailBuild w2) "logFC" = some (vl.map toNumericCell) ∧
    getCol (tailBuild w2) "padj" = some (vp.map toNumericCell) ∧
    getCol (tailBuild w2) "AveExpr" = some va ∧
    getCol (tailBuild w2) "neg_log10_padj" =
      some ((vp.map toNumericCell).map negLog10Cell) := by
  have h3p : getCol (mapCol w2 "padj" toNumericCell) "padj" =
      some (vp.map toNumericCell) := by
    rw [getCol_mapCol_eq, h2p]
    rfl
  have h3g : getCol (mapCol w2 "padj" toNumericCell) "gene" = some vg := by
    rw [getCol_mapCol_ne _ _ _ _ (by decide), h2g]
  have h3l : getCol (mapCol w2 "padj" toNumericCell) "logFC" = some vl := by
    rw [getCol_mapCol_ne _ _ _ _ (by decide), h2l]
  have h3a : getCol (mapCol w2 "padj" toNumericCell) "AveExpr" = some va := by
    rw [getCol_mapCol_ne _ _ _ _ (by decide), h2a]
  have h3n : getCol (mapCol w2 "padj" toNumericCell) "neg_log10_padj" =
      none := by
    rw [getCol_mapCol_ne _ _ _ _ (by decide), h2n]
  have h4l : getCol (mapCol (mapCol w2 "padj" toNumericCell) "logFC"
      toNumericCell) "logFC" = some (vl.map toNumericCell) := by
    rw [getCol_mapCol_eq, h3l]
    rfl
  have h4p : getCol (mapCol (mapCol w2 "padj" toNumericCell) "logFC"
      toNumericCell) "padj" = some (vp.map toNumericCell) := by
    rw [getCol_mapCol_ne _ _ _ _ (by decide), h3p]
  have h4g : getCol (mapCol (mapCol w2 "padj" toNumericCell) "logFC"
      toNumericCell) "gene" = some vg := by
    rw [getCol_mapCol_ne _ _ _ _ (by decide), h3g]
  have h4a : getCol (mapCol (mapCol w2 "padj" toNumericCell) "logFC"
      toNumericCell) "AveExpr" = some va := by
    rw [getCol_mapCol_ne _ _ _ _ (by decide), h3a]
  have h4n : getCol (mapCol (mapCol w2 "padj" toNumericCell) "logFC"
      toNumericCell) "neg_log10_padj" = none := by
    rw [getCol_mapCol_ne _ _ _ _ (by decide), h3n]
  have hval : ((getCol (mapCol (mapCol w2 "padj" toNumericCell) "logFC"
      toNumericCell) "padj").getD []) = vp.map toNumericCell := by
    rw [h4p]
    rfl
  have h5n : getCol (mapCol (mapCol w2 "padj" toNumericCell) "logFC"
      toNumericCell ++
      [("neg_log10_padj",
        ((getCol (mapCol (mapCol w2 "padj" toNumericCell) "logFC"
          toNumericCell) "padj").getD []).map negLog10Cell)])
      "neg_log10_padj" =
      some ((vp.map toNumericCell).map negLog10Cell) := by
    rw [getCol_append_right _ h4n, hval, getCol_singleton]
  have h5g := getCol_append_left
    [("neg_log10_padj",
      ((getCol (mapCol (mapCol w2 "padj" toNumericCell) "logFC"
        toNumericCell) "padj").getD []).map negLog10Cell)] h4g
  have h5l := getCol_append_left
    [("neg_log10_padj",
      ((getCol (mapCol (mapCol w2 "padj" toNumericCell) "logFC"
        toNumericCell) "padj").getD []).map negLog10Cell)] h4l
  have h5p := getCol_append_left
    [("neg_log10_padj",
      ((getCol (mapCol (mapCol w2 "padj" toNumericCell) "logFC"
        toNumericCell) "padj").getD []).map negLog10Cell)] h4p
  have h5a := getCol_append_left
    [("neg_log10_padj",
      ((getCol (mapCol (mapCol w2 "padj" toNumericCell) "logFC"
        toNumericCell) "padj").getD []).map negLog10Cell)] h4a
  simp only [tailBuild]
  refine ⟨?_, ?_, ?_, ?_, ?_, ?_⟩
  · rw [selectCols_map_fst]
    simp [List.filter_cons, h5g, h5l, h5a, h5p, h5n]
  · rw [getCol_selectCols _ _ _ (by decide) (by decide), h5g]
  · rw [getCol_selectCols _ _ _ (by decide) (by decide), h5l]
  · rw [getCol_selectCols _ _ _ (by decide) (by decide), h5p]
  · rw [getCol_selectCols _ _ _ (by decide) (by decide), h5a]
  · rw [getCol_selectCols _ _ _ (by decide) (by decide), h5n]

/-- Behaviour of the builder body under the well-formedness conditions the
detector guarantees in practice: the referenced columns are present and
distinct, and the five canonical output names are fresh. -/
theorem buildOut_spec (df : DF) (gene_col logfc_col padj_col : String)
    (ave : Option String)
    (hg : gene_col ∈ df.map Prod.fst)
    (hl : logfc_col ∈ df.map Prod.fst)
    (hp : padj_col ∈ df.map Prod.fst)
    (hgl : ¬gene_col = logfc_col) (hgp : ¬gene_col = padj_col)
    (hlp : ¬logfc_col = padj_col)
    (hA : ∀ a, ave = some a → a ∈ df.map Prod.fst ∧ ¬a = gene_col ∧
      ¬a = logfc_col ∧ ¬a = padj_col)
    (hfresh : ∀ t ∈ ["gene", "logFC", "AveExpr", "padj", "neg_log10_padj"],
      t ∉ df.map Prod.fst) :
    (buildOut df gene_col logfc_col padj_col ave).map Prod.fst =
      ["gene", "logFC", "AveExpr", "padj", "neg_log10_padj"] ∧
    getCol (buildOut df gene_col logfc_col padj_col ave) "gene" =
      getCol df gene_col ∧
    getCol (buildOut df gene_col logfc_col padj_col ave) "logFC" =
      (getCol df logfc_col).map (List.map toNumericCell) ∧
    getCol (buildOut df gene_col logfc_col padj_col ave) "padj" =
      (getCol df padj_col).map (List.map toNumericCell) ∧
    (∀ a, ave = some a →
      getCol (buildOut df gene_col logfc_col padj_col ave) "AveExpr" =
        getCol df a) ∧
    (ave = none →
      getCol (buildOut df gene_col logfc_col padj_col ave) "AveExpr" =
        some (List.replicate (nrowsDF df) Cell.nan)) ∧
    getCol (buildOut df gene_col logfc_col padj_col ave) "neg_log10_padj" =
      some ((((getCol df padj_col).getD []).map toNumericCell).map
        negLog10Cell) := by
  have hlg : ¬logfc_col = gene_col := fun h => hgl h.symm
  have hpg : ¬padj_col = gene_col := fun h => hgp h.symm
  have hpl : ¬padj_col = logfc_col := fun h => hlp h.symm
  have hfg : "gene" ∉ df.map Prod.fst := hfresh _ (by decide)
  have hfl : "logFC" ∉ df.map Prod.fst := hfresh _ (by decide)
  have hfa : "AveExpr" ∉ df.map Prod.fst := hfresh _ (by decide)
  have hfp : "padj" ∉ df.map Prod.fst := hfresh _ (by decide)
  have hfn : "neg_log10_padj" ∉ df.map Prod.fst := hfresh _ (by decide)
  have hf1g : applyRen [(gene_col, "gene"), (logfc_col, "logFC"),
      (padj_col, "padj")] gene_col = "gene" := by
    simp [applyRen]
  have hf1l : applyRen [(gene_col, "gene"), (logfc_col, "logFC"),
      (padj_col, "padj")] logfc_col = "logFC" := by
    simp [applyRen, hlg]
  have hf1p : applyRen [(gene_col, "gene"), (logfc_col, "logFC"),
      (padj_col, "padj")] padj_col = "padj" := by
    simp [applyRen, hpg, hpl]
  have hf1k : ∀ k, ¬k = gene_col → ¬k = logfc_col → ¬k = padj_col →
      applyRen [(gene_col, "gene"), (logfc_col, "logFC"),
        (padj_col, "padj")] k = k := by
    intro k h1 h2 h3
    simp [applyRen, h1, h2, h3]
  have hug : ∀ k ∈ df.map Prod.fst, applyRen [(gene_col, "gene"),
      (logfc_col, "logFC"), (padj_col, "padj")] k = "gene" →
      k = gene_col := by
    intro k hk hfk
    by_cases h1 : k = gene_col
    · exact h1
    · by_cases h2 : k = logfc_col
      · subst h2
        rw [hf1l] at hfk
        exact absurd hfk (by decide)
      · by_cases h3 : k = padj_col
        · subst h3
          rw [hf1p] at hfk
          exact absurd hfk (by decide)
        · rw [hf1k k h1 h2 h3] at hfk
          subst hfk
          exact absurd hk hfg
  have hul : ∀ k ∈ df.map Prod.fst, applyRen [(gene_col, "gene"),
      (logfc_col, "logFC"), (padj_col, "padj")] k = "logFC" →
      k = logfc_col := by
    intro k hk hfk
    by_cases h2 : k = logfc_col
    · exact h2
    · by_cases h1 : k = gene_col
      · subst h1
        rw [hf1g] at hfk
        exact absurd hfk (by decide)
      · by_cases h3 : k = padj_col
        · subst h3
          rw [hf1p] at hfk
          exact absurd hfk (by decide)
        · rw [hf1k k h1 h2 h3] at hfk
          subst hfk
          exact absurd hk hfl
  have hup : ∀ k ∈ df.map Prod.fst, applyRen [(gene_col, "gene"),
      (logfc_col, "logFC"), (padj_col, "padj")] k = "padj" →
      k = padj_col := by
    intro k hk hfk
    by_cases h3 : k = padj_col
    · exact h3
    · by_cases h1 : k = gene_col
      · subst h1
        rw [hf1g] at hfk
        exact absurd hfk (by decide)
      · by_cases h2 : k = logfc_col
        · subst h2
          rw [hf1l] at hfk
          exact absurd hfk (by decide)
        · rw [hf1k k h1 h2 h3] at hfk
          subst hfk
          exact absurd hk hfp
  have hnone : ∀ m : String, ¬m = "gene" → ¬m = "logFC" → ¬m = "padj" →
      m ∉ df.map Prod.fst →
      getCol (renameCols df (applyRen [(gene_col, "gene"),
        (logfc_col, "logFC"), (padj_col, "padj")])) m = none := by
    intro m hm1 hm2 hm3 hm4
    apply getCol_renameCols_none
    intro k hk hfk
    by_cases h1 : k = gene_col
    · subst h1
      rw [hf1g] at hfk
      exact hm1 hfk.symm
    · by_cases h2 : k = logfc_col
      · subst h2
        rw [hf1l] at hfk
        exact hm2 hfk.symm
      · by_cases h3 : k = padj_col
        · subst h3
          rw [hf1p] at hfk
          exact hm3 hfk.symm
        · rw [hf1k k h1 h2 h3] at hfk
          subst hfk
          exact hm4 hk
  obtain ⟨vg, hvg⟩ := Option.isSome_iff_exists.mp
    ((getCol_isSome_iff df gene_col).mpr hg)
  obtain ⟨vl, hvl⟩ := Option.isSome_iff_exists.mp
    ((getCol_isSome_iff df logfc_col).mpr hl)
  obtain ⟨vp, hvp⟩ := Option.isSome_iff_exists.mp
    ((getCol_isSome_iff df padj_col).mpr hp)
  have hw1g : getCol (renameCols df (applyRen [(gene_col, "gene"),
      (logfc_col, "logFC"), (padj_col, "padj")])) "gene" = some vg := by
    rw [getCol_renameCols_eq df _ "gene" gene_col hf1g hug, hvg]
  have hw1l : getCol (renameCols df (applyRen [(gene_col, "gene"),
      (logfc_col, "logFC"), (padj_col, "padj")])) "logFC" = some vl := by
    rw [getCol_renameCols_eq df _ "logFC" logfc_col hf1l hul, hvl]
  have hw1p : getCol (renameCols df (applyRen [(gene_col, "gene"),
      (logfc_col, "logFC"), (padj_col, "padj")])) "padj" = some vp := by
    rw [getCol_renameCols_eq df _ "padj" padj_col hf1p hup, hvp]
  have hw1a : getCol (renameCols df (applyRen [(gene_col, "gene"),
      (logfc_col, "logFC"), (padj_col, "padj")])) "AveExpr" = none :=
    hnone _ (by decide) (by decide) (by decide) hfa
  have hw1n : getCol (renameCols df (applyRen [(gene_col, "gene"),
      (logfc_col, "logFC"), (padj_col, "padj")])) "neg_log10_padj" = none :=
    hnone _ (by decide) (by decide) (by decide) hfn
  cases ave with
  | none =>
    simp only [buildOut]
    have h2g := getCol_append_left
      [("AveExpr", List.replicate (nrowsDF (renameCols df
        (applyRen [(gene_col, "gene"), (logfc_col, "logFC"),
          (padj_col, "padj")]))) Cell.nan)] hw1g
    have h2l := getCol_append_left
      [("AveExpr", List.replicate (nrowsDF (renameCols df
        (applyRen [(gene_col, "gene"), (logfc_col, "logFC"),
          (padj_col, "padj")]))) Cell.nan)] hw1l
    have h2p := getCol_append_left
      [("AveExpr", List.replicate (nrowsDF (renameCols df
        (applyRen [(gene_col, "gene"), (logfc_col, "logFC"),
          (padj_col, "padj")]))) Cell.nan)] hw1p
    have h2a : getCol (renameCols df (applyRen [(gene_col, "gene"),
        (logfc_col, "logFC"), (padj_col, "padj")]) ++
        [("AveExpr", List.replicate (nrowsDF (renameCols df
          (applyRen [(gene_col, "gene"), (logfc_col, "logFC"),
            (padj_col, "padj")]))) Cell.nan)]) "AveExpr" =
        some (List.replicate (nrowsDF (renameCols df
          (applyRen [(gene_col, "gene"), (logfc_col, "logFC"),
            (padj_col, "padj")]))) Cell.nan) := by
      rw [getCol_append_right _ hw1a, getCol_singleton]
    have h2n : getCol (renameCols df (applyRen [(gene_col, "gene"),
        (logfc_col, "logFC"), (padj_col, "padj")]) ++
        [("AveExpr", List.replicate (nrowsDF (renameCols df
          (applyRen [(gene_col, "gene"), (logfc_col, "logFC"),
            (padj_col, "padj")]))) Cell.nan)]) "neg_log10_padj" = none := by
      rw [getCol_append_right _ hw1n]
      simp [getCol]
    have ht := tailBuild_spec _ vg vl vp _ h2g h2l h2p h2a h2n
    refine ⟨ht.1, ?_, ?_, ?_, ?_, ?_, ?_⟩
    · rw [ht.2.1, hvg]
    · rw [ht.2.2.1, hvl]
      rfl
    · rw [ht.2.2.2.1, hvp]
      rfl
    · intro a h
      exact (nomatch h)
    · intro h
      rw [ht.2.2.2.2.1, nrows_renameCols]
    · rw [ht.2.2.2.2.2, hvp]
      rfl
  | some a =>
    obtain ⟨ham, hag, hal, hap⟩ := hA a rfl
    obtain ⟨va, hva⟩ := Option.isSome_iff_exists.mp
      ((getCol_isSome_iff df a).mpr ham)
    have hta : ∀ t : String, t ∉ df.map Prod.fst → ¬t = a := by
      intro t ht h
      rw [h] at ht
      exact ht ham
    have hf2a : applyRen [(a, "AveExpr")] a = "AveExpr" := by
      simp [applyRen]
    have hf2k : ∀ k, ¬k = a → applyRen [(a, "AveExpr")] k = k := by
      intro k h
      simp [applyRen, h]
    have hw1names : ∀ m : String, ¬m = "gene" → ¬m = "logFC" →
        ¬m = "padj" → m ∉ df.map Prod.fst →
        m ∉ (renameCols df (applyRen [(gene_col, "gene"),
          (logfc_col, "logFC"), (padj_col, "padj")])).map Prod.fst := by
      intro m hm1 hm2 hm3 hm4 hmem
      have h1 := (getCol_isSome_iff _ m).mpr hmem
      rw [hnone m hm1 hm2 hm3 hm4] at h1
      cases h1
    have hstab : ∀ t : String, ¬t = "AveExpr" → t ∉ df.map Prod.fst →
        getCol (renameCols (renameCols df (applyRen [(gene_col, "gene"),
          (logfc_col, "logFC"), (padj_col, "padj")]))
          (applyRen [(a, "AveExpr")])) t =
        getCol (renameCols df (applyRen [(gene_col, "gene"),
          (logfc_col, "logFC"), (padj_col, "padj")])) t := by
      intro t htA htnames
      apply getCol_renameCols_eq _ _ t t (hf2k t (hta t htnames))
      intro k hk hfk
      by_cases h1 : k = a
      · subst h1
        rw [hf2a] at hfk
        exact absurd hfk.symm htA
      · rw [hf2k k h1] at hfk
        exact hfk
    have h2a : getCol (renameCols (renameCols df
        (applyRen [(gene_col, "gene"), (logfc_col, "logFC"),
          (padj_col, "padj")])) (applyRen [(a, "AveExpr")])) "AveExpr" =
        some va := by
      have huniq2 : ∀ k ∈ (renameCols df (applyRen [(gene_col, "gene"),
          (logfc_col, "logFC"), (padj_col, "padj")])).map Prod.fst,
          applyRen [(a, "AveExpr")] k = "AveExpr" → k = a := by
        intro k hk hfk
        by_cases h1 : k = a
        · exact h1
        · rw [hf2k k h1] at hfk
          subst hfk
          exact absurd hk
            (hw1names "AveExpr" (by decide) (by decide) (by decide) hfa)
      rw [getCol_renameCols_eq _ _ "AveExpr" a hf2a huniq2]
      have huniqa : ∀ k ∈ df.map Prod.fst, applyRen [(gene_col, "gene"),
          (logfc_col, "logFC"), (padj_col, "padj")] k = a → k = a := by
        intro k hk hfk
        by_cases h1 : k = gene_col
        · subst h1
          rw [hf1g] at hfk
          exact absurd hfk (hta "gene" hfg)
        · by_cases h2 : k = logfc_col
          · subst h2
            rw [hf1l] at hfk
            exact absurd hfk (hta "logFC" hfl)
          · by_cases h3 : k = padj_col
            · subst h3
              rw [hf1p] at hfk
              exact absurd hfk (hta "padj" hfp)
            · rw [hf1k k h1 h2 h3] at hfk
              exact hfk
      rw [getCol_renameCols_eq df _ a a (hf1k a hag hal hap) huniqa, hva]
    have h2g : getCol (renameCols (renameCols df
        (applyRen [(gene_col, "gene"), (logfc_col, "logFC"),
          (padj_col, "padj")])) (applyRen [(a, "AveExpr")])) "gene" =
        some vg := by
      rw [hstab "gene" (by decide) hfg, hw1g]
    have h2l : getCol (renameCols (renameCols df
        (applyRen [(gene_col, "gene"), (logfc_col, "logFC"),
          (padj_col, "padj")])) (applyRen [(a, "AveExpr")])) "logFC" =
        some vl := by
      rw [hstab "logFC" (by decide) hfl, hw1l]
    have h2p : getCol (renameCols (renameCols df
        (applyRen [(gene_col, "gene"), (logfc_col, "logFC"),
          (padj_col, "padj")])) (applyRen [(a, "AveExpr")])) "padj" =
        some vp := by
      rw [hstab "padj" (by decide) hfp, hw1p]
    have h2n : getCol (renameCols (renameCols df
        (applyRen [(gene_col, "gene"), (logfc_col, "logFC"),
          (padj_col, "padj")])) (applyRen [(a, "AveExpr")]))
        "neg_log10_padj" = none := by
      rw [hstab "neg_log10_padj" (by decide) hfn, hw1n]
    have ht := tailBuild_spec _ vg vl vp va h2g h2l h2p h2a h2n
    simp only [buildOut]
    refine ⟨ht.1, ?_, ?_, ?_, ?_, ?_, ?_⟩
    · rw [ht.2.1, hvg]
    · rw [ht.2.2.1, hvl]
      rfl
    · rw [ht.2.2.2.1, hvp]
      rfl
    · intro b hb
      injection hb with hb2
      subst hb2
      rw [ht.2.2.2.2.1, hva]
    · intro h
      exact (nomatch h)
    · rw [ht.2.2.2.2.2, hvp]
      rfl

theorem preparar_eq (df : DF) (gene_col : String) (meta : ContrastRec)
    (logfc_col padj_col : String) (hL : meta.logFC = some logfc_col)
    (hPc : optOr meta.adjP meta.P = some padj_col) :
    preparar_deg_por_contraste df gene_col meta =
      some (buildOut df gene_col logfc_col padj_col meta.AveExpr) := by
  simp only [preparar_deg_por_contraste, hL, hPc]

/-- C5: for a loaded table, a gene column and a registered contrast (its
referenced columns present, mutually distinct, and the canonical output
names fresh), the builder returns a table whose columns are exactly
`gene, logFC, AveExpr, padj, neg_log10_padj` in that order; when the
contrast has no detected `AveExpr` column that column is NaN for every row;
when an `adjP` column exists `padj` is taken from it (the `P` column is
dropped, as the output has no other columns); when only `P` exists its
values are used as `padj`. -/
theorem preparar_deg_spec (df : DF) (gene_col logfc_col padj_col : String)
    (meta : ContrastRec)
    (hL : meta.logFC = some logfc_col)
    (hPc : optOr meta.adjP meta.P = some padj_col)
    (hg : gene_col ∈ df.map Prod.fst)
    (hl : logfc_col ∈ df.map Prod.fst)
    (hp : padj_col ∈ df.map Prod.fst)
    (hgl : ¬gene_col = logfc_col) (hgp : ¬gene_col = padj_col)
    (hlp : ¬logfc_col = padj_col)
    (hA : ∀ a, meta.AveExpr = some a → a ∈ df.map Prod.fst ∧
      ¬a = gene_col ∧ ¬a = logfc_col ∧ ¬a = padj_col)
    (hfresh : ∀ t ∈ ["gene", "logFC", "AveExpr", "padj", "neg_log10_padj"],
      t ∉ df.map Prod.fst) :
    ∃ out, preparar_deg_por_contraste df gene_col meta = some out ∧
      out.map Prod.fst =
        ["gene", "logFC", "AveExpr", "padj", "neg_log10_padj"] ∧
      (meta.AveExpr = none →
        getCol out "AveExpr" =
          some (List.replicate (nrowsDF df) Cell.nan)) ∧
      (∀ a, meta.adjP = some a →
        getCol out "padj" = (getCol df a).map (List.map toNumericCell)) ∧
      (meta.adjP = none → meta.P = some padj_col ∧
        getCol out "padj" =
          (getCol df padj_col).map (List.map toNumericCell)) := by
  have hspec := buildOut_spec df gene_col logfc_col padj_col meta.AveExpr
    hg hl hp hgl hgp hlp hA hfresh
  refine ⟨buildOut df gene_col logfc_col padj_col meta.AveExpr,
    preparar_eq df gene_col meta logfc_col padj_col hL hPc, hspec.1,
    ?_, ?_, ?_⟩
  · intro hAve
    exact hspec.2.2.2.2.2.1 hAve
  · intro a ha
    have hpa : a = padj_col := by
      rw [ha] at hPc
      simpa [optOr] using hPc
    subst hpa
    exact hspec.2.2.2.1
  · intro hnoJ
    have hP : meta.P = some padj_col := by
      rw [hnoJ] at hPc
      simpa [optOr] using hPc
    exact ⟨hP, hspec.2.2.2.1⟩

/-- Witness for C5: a three-column table with an `adjP` column and no
`AveExpr` column. -/
theorem preparar_deg_spec_witness :
    ∃ out, preparar_deg_por_contraste
        [("g", [Cell.str "x"]), ("L", [Cell.num 2]), ("A", [Cell.num 1])]
        "g" (⟨some "L", none, some "A", none⟩ : ContrastRec) = some out ∧
      out.map Prod.fst =
        ["gene", "logFC", "AveExpr", "padj", "neg_log10_padj"] ∧
      ((⟨some "L", none, some "A", none⟩ : ContrastRec).AveExpr = none →
        getCol out "AveExpr" = some (List.replicate (nrowsDF
          [("g", [Cell.str "x"]), ("L", [Cell.num 2]),
            ("A", [Cell.num 1])]) Cell.nan)) ∧
      (∀ a, (⟨some "L", none, some "A", none⟩ : ContrastRec).adjP = some a →
        getCol out "padj" = (getCol
          [("g", [Cell.str "x"]), ("L", [Cell.num 2]),
            ("A", [Cell.num 1])] a).map (List.map toNumericCell)) ∧
      ((⟨some "L", none, some "A", none⟩ : ContrastRec).adjP = none →
        (⟨some "L", none, some "A", none⟩ : ContrastRec).P = some "A" ∧
        getCol out "padj" = (getCol
          [("g", [Cell.str "x"]), ("L", [Cell.num 2]),
            ("A", [Cell.num 1])] "A").map (List.map toNumericCell)) :=
  preparar_deg_spec
    [("g", [Cell.str "x"]), ("L", [Cell.num 2]), ("A", [Cell.num 1])]
    "g" "L" "A" ⟨some "L", none, some "A", none⟩ rfl rfl
    (by decide) (by decide) (by decide) (by decide) (by decide) (by decide)
    (fun a h => nomatch h) (by decide)

/-- C3: the builder computes `neg_log10_padj` as
`-log10(clip(padj, 1e-300, 1.0))` cell by cell from the coerced `padj`
column; `padj = 0` yields exactly `300` (the clamp floors it at `1e-300`
first, so no infinity and no error), and a NaN `padj` yields NaN (both
`np.clip` and `np.log10` propagate NaN). -/
theorem neg_log10_padj_spec (df : DF) (gene_col logfc_col padj_col : String)
    (meta : ContrastRec)
    (hL : meta.logFC = some logfc_col)
    (hPc : optOr meta.adjP meta.P = some padj_col)
    (hg : gene_col ∈ df.map Prod.fst)
    (hl : logfc_col ∈ df.map Prod.fst)
    (hp : padj_col ∈ df.map Prod.fst)
    (hgl : ¬gene_col = logfc_col) (hgp : ¬gene_col = padj_col)
    (hlp : ¬logfc_col = padj_col)
    (hA : ∀ a, meta.AveExpr = some a → a ∈ df.map Prod.fst ∧
      ¬a = gene_col ∧ ¬a = logfc_col ∧ ¬a = padj_col)
    (hfresh : ∀ t ∈ ["gene", "logFC", "AveExpr", "padj", "neg_log10_padj"],
      t ∉ df.map Prod.fst) :
    (∃ out pv, preparar_deg_por_contraste df gene_col meta = some out ∧
      getCol out "padj" = some pv ∧
      getCol out "neg_log10_padj" = some (pv.map negLog10Cell)) ∧
    (∀ q : ℚ, negLog10Cell (Cell.num q) =
      Cell.real (-Real.logb 10 ((clipQ q : ℚ) : ℝ))) ∧
    negLog10Cell (Cell.num 0) = Cell.real 300 ∧
    negLog10Cell Cell.nan = Cell.nan := by
  have hspec := buildOut_spec df gene_col logfc_col padj_col meta.AveExpr
    hg hl hp hgl hgp hlp hA hfresh
  obtain ⟨vp, hvp⟩ := Option.isSome_iff_exists.mp
    ((getCol_isSome_iff df padj_col).mpr hp)
  refine ⟨⟨buildOut df gene_col logfc_col padj_col meta.AveExpr,
    vp.map toNumericCell,
    preparar_eq df gene_col meta logfc_col padj_col hL hPc, ?_, ?_⟩,
    fun q => rfl, ?_, rfl⟩
  · rw [hspec.2.2.2.1, hvp]
    rfl
  · rw [hspec.2.2.2.2.2.2, hvp]
    rfl
  · show Cell.real (-Real.logb 10 ((clipQ 0 : ℚ) : ℝ)) = Cell.real 300
    have hclip : clipQ 0 = 1e-300 := by
      unfold clipQ
      rw [max_eq_left (by norm_num), min_eq_right (by norm_num)]
    have hcast : ((1e-300 : ℚ) : ℝ) = ((10 : ℝ) ^ (300 : ℕ))⁻¹ := by
      have h1 : (1e-300 : ℚ) = ((10 : ℚ) ^ (300 : ℕ))⁻¹ := by norm_num
      rw [h1]
      push_cast
      ring
    rw [hclip, hcast]
    have hval : (-Real.logb 10 (((10 : ℝ) ^ (300 : ℕ))⁻¹)) = 300 := by
      rw [Real.logb_inv, Real.logb_pow,
        Real.logb_self_eq_one (by norm_num)]
      norm_num
    rw [hval]

/-- Witness for C3: a three-column table whose contrast has only a raw `P`
column. -/
theorem neg_log10_padj_spec_witness :
    (∃ out pv, preparar_deg_por_contraste
        [("g", [Cell.str "y"]), ("L2", [Cell.num 3]),
          ("P2", [Cell.num (1/10)])]
        "g" (⟨some "L2", none, none, some "P2"⟩ : ContrastRec) = some out ∧
      getCol out "padj" = some pv ∧
      getCol out "neg_log10_padj" = some (pv.map negLog10Cell)) ∧
    (∀ q : ℚ, negLog10Cell (Cell.num q) =
      Cell.real (-Real.logb 10 ((clipQ q : ℚ) : ℝ))) ∧
    negLog10Cell (Cell.num 0) = Cell.real 300 ∧
    negLog10Cell Cell.nan = Cell.nan :=
  neg_log10_padj_spec
    [("g", [Cell.str "y"]), ("L2", [Cell.num 3]), ("P2", [Cell.num (1/10)])]
    "g" "L2" "P2" ⟨some "L2", none, none, some "P2"⟩ rfl rfl
    (by decide) (by decide) (by decide) (by decide) (by decide) (by decide)
    (fun a h => nomatch h) (by decide)

end DiffExpr

